import Mathlib

/-!
Verification development for the cortex repository's memory and state
subsystems (src/memory/vector.rs, src/memory/mod.rs, src/state/mod.rs,
src/config.rs), shallowly embedded in Lean.

Modelling conventions:
- Rust `f32` values are modelled as rationals.  The floating-point square
  root used by `cosine_similarity` and `normalize` has no exact rational
  counterpart, so those functions take the square-root function `fsqrt` as
  an explicit parameter; theorems assume only properties true of the real
  (and IEEE) square root, such as `fsqrt 0 = 0`.
- `HashMap<String, _>` is modelled as an association list in which
  insertion replaces an existing binding in place and appends a fresh one;
  such lists never hold two bindings for one key, so `List.length` models
  `HashMap::len`.
- `SystemTime::now()` is modelled by an explicit `now : Nat` argument.
- File-system writes are modelled by an explicit disk map plus a boolean
  oracle saying whether the write succeeds; bincode
  serialization/deserialization is modelled as the identity on the
  serializable state structures.
-/

namespace Cortex

/-- Association-list lookup, modelling `HashMap::get`. -/
def lookupA {β : Type} : List (String × β) → String → Option β
  | [], _ => none
  | p :: rest, k => if p.1 = k then some p.2 else lookupA rest k

/-- Association-list insert, modelling `HashMap::insert`: replaces an
existing binding in place, otherwise appends. -/
def insertA {β : Type} : List (String × β) → String → β → List (String × β)
  | [], k, v => [(k, v)]
  | p :: rest, k, v => if p.1 = k then (k, v) :: rest else p :: insertA rest k v

/-- Association-list removal, modelling `HashMap::remove`. -/
def eraseA {β : Type} (l : List (String × β)) (k : String) : List (String × β) :=
  l.filter (fun p => p.1 ≠ k)

/-- Rust `MemoryEntry` from src/memory/mod.rs. -/
structure MemoryEntry where
  key : String
  content : String
  embedding : List ℚ
  metadata : List (String × String)
  created_at : Nat
deriving DecidableEq, Repr

/-- Rust `SearchResult` from src/memory/mod.rs. -/
structure SearchResult where
  entry : MemoryEntry
  score : ℚ
deriving DecidableEq, Repr

/-- Rust `CortexError` from src/lib.rs (variants relevant to the claims; the
`Io` variant is rendered `IoError`). -/
inductive CortexError where
  | ModelLoad (msg : String)
  | Inference (msg : String)
  | Memory (msg : String)
  | StateErr (msg : String)
  | IoError (msg : String)
  | Serialization (msg : String)
  | InvalidCheckpoint (msg : String)
  | Tool (msg : String)
  | Config (msg : String)
deriving DecidableEq, Repr

/-- Rust `VectorStore` from src/memory/vector.rs. -/
structure VectorStore where
  entries : List (String × MemoryEntry)
  keys : List String
  dim : Nat
  max_entries : Nat
deriving DecidableEq, Repr

/-- Rust `VectorStore::new`. -/
def VectorStore.new (dim max_entries : Nat) : VectorStore :=
  { entries := [], keys := [], dim := dim, max_entries := max_entries }

/-- Rust `VectorStore::get`. -/
def VectorStore.get (s : VectorStore) (key : String) : Option MemoryEntry :=
  lookupA s.entries key

/-- Rust `VectorStore::remove`: the returned store models the mutation, the
boolean the Rust return value. -/
def VectorStore.remove (s : VectorStore) (key : String) : VectorStore × Bool :=
  if (lookupA s.entries key).isSome then
    ({ s with entries := eraseA s.entries key,
              keys := s.keys.filter (fun k => k ≠ key) }, true)
  else (s, false)

/-- Rust `VectorStore::insert`: when at capacity, first removes the entry at the
oldest key in insertion order (if any), then blindly inserts into the map
and appends the key. -/
def VectorStore.insert (s : VectorStore) (entry : MemoryEntry) : VectorStore :=
  let s1 :=
    if s.max_entries ≤ s.entries.length then
      match s.keys.head? with
      | some oldest => (s.remove oldest).1
      | none => s
    else s
  { s1 with entries := insertA s1.entries entry.key entry,
            keys := s1.keys ++ [entry.key] }

/-- Rust `VectorStore::len` (the map's size). -/
def VectorStore.len (s : VectorStore) : Nat := s.entries.length

/-- Rust `VectorStore::is_empty`. -/
def VectorStore.isEmptyStore (s : VectorStore) : Bool := s.entries.isEmpty

/-- Rust `VectorStore::clear`. -/
def VectorStore.clear (s : VectorStore) : VectorStore :=
  { s with entries := [], keys := [] }

/-- Rust `VectorStore::entries`: entries listed by walking the insertion-order
key sequence and looking each key up in the map. -/
def VectorStore.entriesList (s : VectorStore) : List MemoryEntry :=
  s.keys.filterMap (fun k => lookupA s.entries k)

/-- Sum of squares of a vector (the expression inside `sqrt` in
`cosine_similarity` and `normalize`). -/
def sumOfSquares (v : List ℚ) : ℚ := (v.map (fun x => x * x)).sum

/-- Dot product via `zip`, as in src/memory/vector.rs. -/
def dotProduct (a b : List ℚ) : ℚ := (List.zipWith (fun x y => x * y) a b).sum

/-- Rust `cosine_similarity` from src/memory/vector.rs, with the floating-point
square root abstracted as `fsqrt`. -/
def cosine_similarity (fsqrt : ℚ → ℚ) (a b : List ℚ) : ℚ :=
  if a.length ≠ b.length then 0
  else
    let norm_a := fsqrt (sumOfSquares a)
    let norm_b := fsqrt (sumOfSquares b)
    if norm_a = 0 ∨ norm_b = 0 then 0
    else dotProduct a b / (norm_a * norm_b)

/-- Rust `normalize` from src/memory/vector.rs. -/
def normalize (fsqrt : ℚ → ℚ) (v : List ℚ) : List ℚ :=
  let norm := fsqrt (sumOfSquares v)
  if norm = 0 then v else v.map (fun x => x / norm)

/-- Sort order used in `VectorStore::search`: descending by score (the
Rust code sorts ascending by `b.partial_cmp(a)`; ties are left in
whatever order the map iteration produced, which the spec flags as
nondeterministic, so any stable sort models it). -/
def scoreRel (x y : MemoryEntry × ℚ) : Prop := y.2 ≤ x.2

instance : DecidableRel scoreRel :=
  fun x y => inferInstanceAs (Decidable (y.2 ≤ x.2))

instance : IsTotal (MemoryEntry × ℚ) scoreRel :=
  ⟨fun a b => le_total b.2 a.2⟩

instance : IsTrans (MemoryEntry × ℚ) scoreRel :=
  ⟨fun _ _ _ h1 h2 => le_trans h2 h1⟩

/-- Rust `VectorStore::search`: scores every entry against the normalized
query, sorts descending by score, takes the top `k`. -/
def VectorStore.search (fsqrt : ℚ → ℚ) (s : VectorStore) (query : List ℚ)
    (k : Nat) : List SearchResult :=
  if s.entries.isEmpty ∨ k = 0 then []
  else
    let query_norm := normalize fsqrt query
    let scored : List (MemoryEntry × ℚ) :=
      s.entries.map (fun p => (p.2, cosine_similarity fsqrt query_norm p.2.embedding))
    let sorted := List.insertionSort scoreRel scored
    (sorted.take k).map (fun p => { entry := p.1, score := p.2 })

/-- Rust `MemoryConfig` from src/config.rs (`f32` threshold as a rational). -/
structure MemoryConfig where
  embedding_dim : Nat
  max_entries : Nat
  persist_path : Option String
  default_search_k : Nat
  similarity_threshold : ℚ
deriving DecidableEq, Repr

/-- Rust `MemoryConfig::default`. -/
def MemoryConfig.default : MemoryConfig :=
  { embedding_dim := 4096
    max_entries := 100000
    persist_path := none
    default_search_k := 5
    similarity_threshold := 7/10 }

/-- Rust `Memory` facade from src/memory/mod.rs. -/
structure Memory where
  store : VectorStore
  config : MemoryConfig
deriving DecidableEq, Repr

/-- Rust `Memory::new`. -/
def Memory.new (config : MemoryConfig) : Memory :=
  { store := VectorStore.new config.embedding_dim config.max_entries
    config := config }

/-- The error message built by `Memory::write` on a dimension mismatch. -/
def dimensionMismatchMsg (expected actual : Nat) : String :=
  "Embedding dimension mismatch: expected " ++ toString expected
    ++ ", got " ++ toString actual

/-- Rust `Memory::write` (timestamp passed explicitly): validates the embedding
dimension, then removes any existing entry with the same key and inserts. -/
def Memory.write (m : Memory) (key content : String) (embedding : List ℚ)
    (now : Nat) : Except CortexError Memory :=
  if embedding.length ≠ m.config.embedding_dim then
    Except.error (CortexError.Memory
      (dimensionMismatchMsg m.config.embedding_dim embedding.length))
  else
    let entry : MemoryEntry :=
      { key := key, content := content, embedding := embedding,
        metadata := [], created_at := now }
    let s1 := (m.store.remove key).1
    Except.ok { m with store := s1.insert entry }

/-- Rust `Memory::write_with_metadata`. -/
def Memory.write_with_metadata (m : Memory) (key content : String)
    (embedding : List ℚ) (metadata : List (String × String)) (now : Nat) :
    Except CortexError Memory :=
  if embedding.length ≠ m.config.embedding_dim then
    Except.error (CortexError.Memory
      (dimensionMismatchMsg m.config.embedding_dim embedding.length))
  else
    let entry : MemoryEntry :=
      { key := key, content := content, embedding := embedding,
        metadata := metadata, created_at := now }
    let s1 := (m.store.remove key).1
    Except.ok { m with store := s1.insert entry }

/-- Rust `Memory::read`. -/
def Memory.read (m : Memory) (key : String) : Option MemoryEntry :=
  m.store.get key

/-- Rust `Memory::delete`. -/
def Memory.delete (m : Memory) (key : String) : Memory × Bool :=
  let r := m.store.remove key
  ({ m with store := r.1 }, r.2)

/-- Rust `Memory::search`: raw search filtered by the configured threshold. -/
def Memory.search (fsqrt : ℚ → ℚ) (m : Memory) (query : List ℚ) (k : Nat) :
    List SearchResult :=
  (m.store.search fsqrt query k).filter
    (fun r => decide (m.config.similarity_threshold ≤ r.score))

/-- Rust `Memory::search_with_threshold`. -/
def Memory.search_with_threshold (fsqrt : ℚ → ℚ) (m : Memory)
    (query : List ℚ) (k : Nat) (threshold : ℚ) : List SearchResult :=
  (m.store.search fsqrt query k).filter (fun r => decide (threshold ≤ r.score))

/-- Rust `Memory::entries`. -/
def Memory.entriesList (m : Memory) : List MemoryEntry := m.store.entriesList

/-- Rust `Memory::len`. -/
def Memory.len (m : Memory) : Nat := m.store.len

/-- Rust `Memory::clear`. -/
def Memory.clear (m : Memory) : Memory := { m with store := m.store.clear }

/-- Rust `MemoryState` from src/memory/mod.rs: the serializable snapshot. -/
structure MemoryState where
  embedding_dim : Nat
  max_entries : Nat
  entries : List MemoryEntry
deriving DecidableEq, Repr

/-- Rust `Memory::get_state`. -/
def Memory.get_state (m : Memory) : MemoryState :=
  { embedding_dim := m.config.embedding_dim
    max_entries := m.config.max_entries
    entries := m.store.entriesList }

/-- Rust `Memory::persist`: serializes `get_state` and writes it to disk;
serialization is modelled as the identity, so persist yields the
`MemoryState` that would be written to the file. -/
def Memory.persist (m : Memory) : MemoryState := m.get_state

/-- Rust `Memory::load` (from an already-deserialized snapshot and the path it
was read from): rebuilds a fresh store by inserting every serialized entry
in order, and resets the config to defaults except for the dimension,
capacity and persist path. -/
def Memory.loadFromState (state : MemoryState) (path : String) : Memory :=
  let store := state.entries.foldl VectorStore.insert
    (VectorStore.new state.embedding_dim state.max_entries)
  { store := store
    config := { MemoryConfig.default with
                  embedding_dim := state.embedding_dim
                  max_entries := state.max_entries
                  persist_path := some path } }

/-- Rust `Memory::set_state`: replaces the store, keeps the config. -/
def Memory.set_state (m : Memory) (state : MemoryState) : Memory :=
  let store := state.entries.foldl VectorStore.insert
    (VectorStore.new state.embedding_dim state.max_entries)
  { m with store := store }

/-- Rust `Memory::write` as used by a caller that keeps the old value on
error (errors leave the caller's store untouched). -/
def Memory.writeOr (m : Memory) (key content : String) (embedding : List ℚ)
    (now : Nat) : Memory :=
  match m.write key content embedding now with
  | Except.ok m1 => m1
  | Except.error _ => m

/-- Rust `Memory::write_with_metadata`, keeping the old value on error. -/
def Memory.writeMetaOr (m : Memory) (key content : String)
    (embedding : List ℚ) (metadata : List (String × String)) (now : Nat) :
    Memory :=
  match m.write_with_metadata key content embedding metadata now with
  | Except.ok m1 => m1
  | Except.error _ => m

/-- A single `Memory::write` request (key, content, embedding, clock). -/
structure WriteReq where
  key : String
  content : String
  emb : List ℚ
  now : Nat
deriving DecidableEq, Repr

/-- The entry a `WriteReq` turns into inside `Memory::write`. -/
def WriteReq.entry (w : WriteReq) : MemoryEntry :=
  { key := w.key, content := w.content, embedding := w.emb,
    metadata := [], created_at := w.now }

/-- A sequence of facade writes. -/
def Memory.writeAll (m : Memory) (ws : List WriteReq) : Memory :=
  ws.foldl (fun acc w => acc.writeOr w.key w.content w.emb w.now) m

/-- A facade-level mutating operation on `Memory` (the operations the
runtime can reach through the facade). -/
inductive MemOp where
  | write (key content : String) (emb : List ℚ) (now : Nat)
  | writeMeta (key content : String) (emb : List ℚ)
      (md : List (String × String)) (now : Nat)
  | deleteOp (key : String)
  | clearOp
  | setStateOp (st : MemoryState)
deriving DecidableEq, Repr

/-- Apply one facade operation; failed writes leave the store as is. -/
def Memory.applyOp (m : Memory) : MemOp → Memory
  | MemOp.write k c e now => m.writeOr k c e now
  | MemOp.writeMeta k c e md now => m.writeMetaOr k c e md now
  | MemOp.deleteOp k => (m.delete k).1
  | MemOp.clearOp => m.clear
  | MemOp.setStateOp st => m.set_state st

/-- Apply a sequence of facade operations. -/
def Memory.applyOps (m : Memory) (ops : List MemOp) : Memory :=
  ops.foldl Memory.applyOp m

/-- Rust `Role` from src/lib.rs. -/
inductive Role where
  | System
  | User
  | Assistant
  | Tool
deriving DecidableEq, Repr

/-- Rust `Message` from src/lib.rs. -/
structure Message where
  role : Role
  content : String
  name : Option String
deriving DecidableEq, Repr

/-- Rust `EngineState` from src/inference/mod.rs (bytes as naturals). -/
structure EngineState where
  data : List Nat
  n_tokens : Nat
  engine_id : String
deriving DecidableEq, Repr

/-- Rust `RuntimeState` from src/state/mod.rs. -/
structure RuntimeState where
  id : String
  name : Option String
  messages : List Message
  memory : MemoryState
  engine_state : EngineState
  created_at : Nat
  metadata : List (String × String)
deriving DecidableEq, Repr

/-- The on-disk checkpoint directory, modelled as a map from file path to
the (already parsed) record stored in that file. -/
abbrev Disk := List (String × RuntimeState)

/-- The checkpoint file path `<dir>/<id>.ckpt` built by `StateStore`. -/
def ckptPath (dir id : String) : String := dir ++ "/" ++ id ++ ".ckpt"

/-- Rust `StateStore` from src/state/mod.rs. -/
structure StateStore where
  checkpoints : List (String × RuntimeState)
  persist_dir : Option String
  max_checkpoints : Nat
  checkpoint_order : List String
deriving DecidableEq, Repr

/-- Rust `StateStore::new`. -/
def StateStore.new (persist_dir : Option String) (max_checkpoints : Nat) :
    StateStore :=
  { checkpoints := [], persist_dir := persist_dir,
    max_checkpoints := max_checkpoints, checkpoint_order := [] }

/-- The `while checkpoints.len() > max_checkpoints` eviction loop inside
`StateStore::save`: repeatedly removes the oldest id from the map, the
order sequence and (best effort) the disk.  The Rust loop never terminates
when the order sequence is empty while the map is over the limit; that
branch is unreachable for stores whose order sequence indexes the map, and
the model returns the state unchanged there. -/
def evictLoop (maxC : Nat) (pdir : Option String) :
    List String → List (String × RuntimeState) → Disk →
    List (String × RuntimeState) × List String × Disk
  | ord, cps, disk =>
    if cps.length ≤ maxC then (cps, ord, disk)
    else
      match ord with
      | [] => (cps, [], disk)
      | oldest :: rest =>
          evictLoop maxC pdir rest (eraseA cps oldest)
            (match pdir with
             | some dir => eraseA disk (ckptPath dir oldest)
             | none => disk)

/-- Rust `StateStore::save` (disk write success given by the `fsOk` oracle): if
a durable directory is configured, writes the record to `<dir>/<id>.ckpt`
first — a failed write propagates before the store is touched — then
registers the record in the map and at the end of the order sequence, then
evicts while over the retention limit. -/
def StateStore.save (s : StateStore) (st : RuntimeState) (disk : Disk)
    (fsOk : Bool) : Except CortexError (String × StateStore × Disk) := do
  let id := st.id
  let disk1 ← match s.persist_dir with
    | some dir =>
        if fsOk then pure (insertA disk (ckptPath dir id) st)
        else Except.error (CortexError.IoError ("disk write failed"))
    | none => pure disk
  let cps := insertA s.checkpoints id st
  let ord := s.checkpoint_order ++ [id]
  let out := evictLoop s.max_checkpoints s.persist_dir ord cps disk1
  Except.ok (id, { s with checkpoints := out.1, checkpoint_order := out.2.1 },
    out.2.2)

/-- Rust `StateStore::save` as used by a caller that keeps its store and disk
when the save fails. -/
def StateStore.saveOr (s : StateStore) (st : RuntimeState) (disk : Disk)
    (fsOk : Bool) : StateStore × Disk :=
  match s.save st disk fsOk with
  | Except.ok out => (out.2.1, out.2.2)
  | Except.error _ => (s, disk)

/-- Rust `StateStore::load`: memory first, then disk (when configured), else an
`InvalidCheckpoint` error naming the requested id. -/
def StateStore.load (s : StateStore) (disk : Disk) (id : String) :
    Except CortexError RuntimeState :=
  match lookupA s.checkpoints id with
  | some st => Except.ok st
  | none =>
    match s.persist_dir with
    | some dir =>
      match lookupA disk (ckptPath dir id) with
      | some st => Except.ok st
      | none => Except.error (CortexError.InvalidCheckpoint
          ("Checkpoint not found: " ++ id))
    | none => Except.error (CortexError.InvalidCheckpoint
        ("Checkpoint not found: " ++ id))

/-- Rust `StateStore::len`. -/
def StateStore.len (s : StateStore) : Nat := s.checkpoints.length

/-- Rust `StateStore::list`. -/
def StateStore.list (s : StateStore) : List String := s.checkpoint_order

/-! ### Association-list lemmas -/

theorem lookupA_eq_none_iff {β : Type} (l : List (String × β)) (k : String) :
    lookupA l k = none ↔ k ∉ l.map Prod.fst := by
  induction l with
  | nil => simp [lookupA]
  | cons p rest ih =>
    by_cases h : p.1 = k
    · simp [lookupA, h]
    · simp only [lookupA, if_neg h, List.map_cons, List.mem_cons, ih]
      constructor
      · rintro hn (rfl | hm)
        · exact h rfl
        · exact hn hm
      · intro hn hm
        exact hn (Or.inr hm)

theorem lookupA_isSome_iff {β : Type} (l : List (String × β)) (k : String) :
    (lookupA l k).isSome ↔ k ∈ l.map Prod.fst := by
  induction l with
  | nil => simp [lookupA]
  | cons p rest ih =>
    by_cases h : p.1 = k
    · simp [lookupA, h]
    · simp only [lookupA, if_neg h, List.map_cons, List.mem_cons, ih]
      constructor
      · intro hm
        exact Or.inr hm
      · rintro (rfl | hm)
        · exact absurd rfl h
        · exact hm

theorem insertA_of_not_mem {β : Type} (l : List (String × β)) (k : String)
    (v : β) (h : k ∉ l.map Prod.fst) : insertA l k v = l ++ [(k, v)] := by
  induction l with
  | nil => rfl
  | cons p rest ih =>
    simp only [List.map_cons, List.mem_cons] at h
    push_neg at h
    have h1 : p.1 ≠ k := fun hx => h.1 hx.symm
    simp [insertA, h1, ih h.2]

theorem eraseA_of_not_mem {β : Type} (l : List (String × β)) (k : String)
    (h : k ∉ l.map Prod.fst) : eraseA l k = l := by
  induction l with
  | nil => rfl
  | cons p rest ih =>
    simp only [List.map_cons, List.mem_cons] at h
    push_neg at h
    have h1 : p.1 ≠ k := fun hx => h.1 hx.symm
    have ih2 := ih h.2
    unfold eraseA at ih2 ⊢
    rw [List.filter_cons, if_pos (by simp [h1]), ih2]

theorem eraseA_cons_of_not_mem {β : Type} (k : String) (v : β)
    (rest : List (String × β)) (h : k ∉ rest.map Prod.fst) :
    eraseA ((k, v) :: rest) k = rest := by
  have h2 := eraseA_of_not_mem rest k h
  unfold eraseA at h2 ⊢
  rw [List.filter_cons, if_neg (by simp), h2]

theorem map_fst_eraseA {β : Type} (l : List (String × β)) (k : String) :
    (eraseA l k).map Prod.fst = (l.map Prod.fst).filter (fun x => x ≠ k) := by
  induction l with
  | nil => rfl
  | cons p rest ih =>
    by_cases h : p.1 = k
    · simp [eraseA, h] at ih ⊢
      exact ih
    · simp [eraseA, h] at ih ⊢
      exact ih

theorem length_eraseA_le {β : Type} (l : List (String × β)) (k : String) :
    (eraseA l k).length ≤ l.length :=
  List.length_filter_le _ l

theorem lookupA_append_of_none {β : Type} (l1 l2 : List (String × β))
    (k : String) (h : lookupA l1 k = none) :
    lookupA (l1 ++ l2) k = lookupA l2 k := by
  induction l1 with
  | nil => rfl
  | cons p rest ih =>
    by_cases hp : p.1 = k
    · simp [lookupA, hp] at h
    · simp only [lookupA, if_neg hp] at h ⊢
      exact ih h

theorem lookupA_append_last {β : Type} (l : List (String × β)) (k : String)
    (v : β) (h : k ∉ l.map Prod.fst) :
    lookupA (l ++ [(k, v)]) k = some v := by
  rw [lookupA_append_of_none _ _ _ ((lookupA_eq_none_iff l k).mpr h)]
  simp [lookupA]

theorem lookupA_of_mem_nodup {β : Type} (l : List (String × β)) (k : String)
    (v : β) (hnd : (l.map Prod.fst).Nodup) (hm : (k, v) ∈ l) :
    lookupA l k = some v := by
  induction l with
  | nil => simp at hm
  | cons p rest ih =>
    simp only [List.map_cons, List.nodup_cons] at hnd
    rcases List.mem_cons.mp hm with h | h
    · rw [← h]
      simp [lookupA]
    · have hk : k ∈ rest.map Prod.fst := by
        exact List.mem_map_of_mem Prod.fst h
      have hp : p.1 ≠ k := fun hx => hnd.1 (hx ▸ hk)
      simp only [lookupA, if_neg hp]
      exact ih hnd.2 h

theorem filter_ne_of_not_mem (l : List String) (k : String) (h : k ∉ l) :
    l.filter (fun x => x ≠ k) = l := by
  refine List.filter_eq_self.mpr (fun a ha => ?_)
  have hne : a ≠ k := fun hx => h (hx ▸ ha)
  simp [hne]

theorem filter_ne_cons (l : List String) (k : String) (h : k ∉ l) :
    (k :: l).filter (fun x => x ≠ k) = l := by
  rw [List.filter_cons, if_neg (by simp)]
  exact filter_ne_of_not_mem l k h

/-! ### VectorStore bookkeeping invariant and operation characterizations -/

/-- The store's bookkeeping invariant: the map's keys (in model order)
equal the insertion-order key sequence, the sequence is duplicate free,
and every entry records its own key. -/
def VectorStore.Aligned (s : VectorStore) : Prop :=
  s.entries.map Prod.fst = s.keys ∧ s.keys.Nodup ∧
    ∀ p ∈ s.entries, p.2.key = p.1

instance (s : VectorStore) : Decidable s.Aligned := by
  unfold VectorStore.Aligned
  infer_instance

/-- Lemma: `remove` always erases the key from both the map and the key
sequence (a no-op when absent). -/
theorem VectorStore.remove_fst (s : VectorStore) (key : String)
    (hfst : s.entries.map Prod.fst = s.keys) :
    (s.remove key).1 = { s with entries := eraseA s.entries key,
                                keys := s.keys.filter (fun k => k ≠ key) } := by
  unfold VectorStore.remove
  by_cases h : (lookupA s.entries key).isSome
  · simp [h]
  · have hnone : lookupA s.entries key = none := by
      cases hl : lookupA s.entries key with
      | some v => rw [hl] at h; simp at h
      | none => rfl
    have hnm : key ∉ s.keys := by
      rw [← hfst]
      exact (lookupA_eq_none_iff _ _).mp hnone
    rw [if_neg h]
    have he : eraseA s.entries key = s.entries :=
      eraseA_of_not_mem _ _ (by rw [hfst]; exact hnm)
    have hkf : s.keys.filter (fun k => k ≠ key) = s.keys :=
      filter_ne_of_not_mem s.keys key hnm
    show s = { s with entries := eraseA s.entries key,
                      keys := s.keys.filter (fun k => k ≠ key) }
    rw [he, hkf]

/-- Lemma: `remove` preserves the invariant and never grows the store. -/
theorem VectorStore.remove_inv (s : VectorStore) (key : String)
    (hA : s.Aligned) :
    (s.remove key).1.Aligned ∧
    (s.remove key).1.entries.length ≤ s.entries.length ∧
    (s.remove key).1.keys = s.keys.filter (fun k => k ≠ key) ∧
    (s.remove key).1.max_entries = s.max_entries ∧
    (s.remove key).1.dim = s.dim := by
  obtain ⟨hfst, hnd, hkey⟩ := hA
  rw [VectorStore.remove_fst s key hfst]
  refine ⟨⟨?_, ?_, ?_⟩, ?_, rfl, rfl, rfl⟩
  · rw [map_fst_eraseA, hfst]
  · exact List.Nodup.filter _ hnd
  · intro p hp
    exact hkey p (List.mem_of_mem_filter hp)
  · exact length_eraseA_le _ _

/-- After `remove key`, the key is gone from the key sequence. -/
theorem VectorStore.remove_key_not_mem (s : VectorStore) (key : String)
    (hfst : s.entries.map Prod.fst = s.keys) :
    key ∉ (s.remove key).1.keys := by
  rw [VectorStore.remove_fst s key hfst]
  intro hm
  have := (List.mem_filter.mp hm).2
  simp at this

/-- Lemma: `insert` below capacity with a fresh key is a plain append to both the
map and the key sequence. -/
theorem VectorStore.insert_fresh (s : VectorStore) (e : MemoryEntry)
    (hfst : s.entries.map Prod.fst = s.keys) (hk : e.key ∉ s.keys)
    (hlt : s.entries.length < s.max_entries) :
    s.insert e = { s with entries := s.entries ++ [(e.key, e)],
                          keys := s.keys ++ [e.key] } := by
  have hcond : ¬ s.max_entries ≤ s.entries.length := by omega
  have hins : insertA s.entries e.key e = s.entries ++ [(e.key, e)] :=
    insertA_of_not_mem _ _ _ (by rw [hfst]; exact hk)
  simp [VectorStore.insert, hcond, hins]

/-- Lemma: `insert` at (or above) capacity with a fresh key drops the oldest
entry from both sequences and appends the new one. -/
theorem VectorStore.insert_evict (s : VectorStore) (e : MemoryEntry)
    (hA : s.Aligned) (hk : e.key ∉ s.keys)
    (hge : s.max_entries ≤ s.entries.length) :
    s.insert e = { s with entries := s.entries.tail ++ [(e.key, e)],
                          keys := s.keys.tail ++ [e.key] } := by
  obtain ⟨hfst, hnd, hkey⟩ := hA
  cases hks : s.keys with
  | nil =>
    have hent : s.entries = [] := by
      have h1 := hfst
      rw [hks] at h1
      exact List.map_eq_nil_iff.mp h1
    simp [VectorStore.insert, hks, hent, insertA]
  | cons k0 kt =>
    cases hes : s.entries with
    | nil =>
      rw [hes] at hfst
      rw [hks] at hfst
      simp at hfst
    | cons p et =>
      have hfst2 := hfst
      rw [hes, hks] at hfst2
      simp only [List.map_cons, List.cons.injEq] at hfst2
      obtain ⟨hp1, hetk⟩ := hfst2
      have hnd2 : k0 ∉ kt ∧ kt.Nodup := by
        rw [hks] at hnd
        exact List.nodup_cons.mp hnd
      have hknotk0 : e.key ∉ kt ∧ e.key ≠ k0 := by
        rw [hks] at hk
        simp only [List.mem_cons] at hk
        push_neg at hk
        exact ⟨hk.2, hk.1⟩
      -- the removal of the oldest key
      have hrem : (s.remove k0).1 =
          { s with entries := et, keys := kt } := by
        rw [VectorStore.remove_fst s k0 hfst]
        have he : eraseA s.entries k0 = et := by
          rw [hes]
          have hpk : p = (k0, p.2) := by rw [← hp1]
          rw [hpk]
          exact eraseA_cons_of_not_mem k0 p.2 et (by rw [hetk]; exact hnd2.1)
        have hkf : s.keys.filter (fun k => k ≠ k0) = kt := by
          rw [hks]
          exact filter_ne_cons kt k0 hnd2.1
        rw [he, hkf]
      have hins : insertA et e.key e = et ++ [(e.key, e)] :=
        insertA_of_not_mem _ _ _ (by rw [hetk]; exact hknotk0.1)
      have hhead : s.keys.head? = some k0 := by rw [hks]; rfl
      simp only [VectorStore.insert, hhead, if_pos hge, hrem, hins]
      simp

/-- A duplicate-free list extended with a fresh element stays
duplicate free. -/
theorem nodup_append_singleton {l : List String} {a : String}
    (hnd : l.Nodup) (ha : a ∉ l) : (l ++ [a]).Nodup := by
  rw [List.nodup_append]
  exact ⟨hnd, List.nodup_singleton a,
    fun x hx hx2 => ha (by simp at hx2; exact hx2 ▸ hx)⟩

/-- Appending a fresh entry to an aligned store body keeps it aligned. -/
theorem aligned_append (pre : List (String × MemoryEntry))
    (kpre : List String) (e : MemoryEntry) (dim maxE : Nat)
    (hfst : pre.map Prod.fst = kpre) (hnd : kpre.Nodup) (hk : e.key ∉ kpre)
    (hkey : ∀ p ∈ pre, p.2.key = p.1) :
    (VectorStore.mk (pre ++ [(e.key, e)]) (kpre ++ [e.key]) dim maxE).Aligned := by
  refine ⟨?_, ?_, ?_⟩
  · simp [hfst]
  · exact nodup_append_singleton hnd hk
  · intro p hp
    rcases List.mem_append.mp hp with h | h
    · exact hkey p h
    · simp at h
      rw [h]

/-- Lemma: `remove` of an absent key is a no-op. -/
theorem VectorStore.remove_absent (s : VectorStore) (key : String)
    (hfst : s.entries.map Prod.fst = s.keys) (h : key ∉ s.keys) :
    s.remove key = (s, false) := by
  unfold VectorStore.remove
  rw [if_neg]
  rw [(lookupA_eq_none_iff s.entries key).mpr (by rw [hfst]; exact h)]
  simp

/-- Lemma: `insert` with a fresh key: invariant preservation and exact size
accounting in both the below-capacity and the at-capacity case. -/
theorem VectorStore.insert_inv (s : VectorStore) (e : MemoryEntry)
    (hA : s.Aligned) (hk : e.key ∉ s.keys) :
    (s.insert e).Aligned ∧
    (s.insert e).keys ⊆ s.keys ++ [e.key] ∧
    (s.insert e).max_entries = s.max_entries ∧
    (s.insert e).dim = s.dim ∧
    ((s.entries.length < s.max_entries ∧
        (s.insert e).entries.length = s.entries.length + 1) ∨
     (s.max_entries ≤ s.entries.length ∧
        (s.insert e).entries.length = max s.entries.length 1)) := by
  obtain ⟨hfst, hnd, hkey⟩ := hA
  by_cases hc : s.max_entries ≤ s.entries.length
  · rw [VectorStore.insert_evict s e ⟨hfst, hnd, hkey⟩ hk hc]
    have hfst2 : s.entries.tail.map Prod.fst = s.keys.tail := by
      rw [List.map_tail, hfst]
    have hnd2 : s.keys.tail.Nodup := by
      cases hkk : s.keys with
      | nil => simp
      | cons k0 kt =>
        rw [hkk] at hnd
        simp only [List.tail_cons]
        exact (List.nodup_cons.mp hnd).2
    have hk2 : e.key ∉ s.keys.tail := fun hm => hk (List.tail_subset _ hm)
    refine ⟨aligned_append _ _ _ _ _ hfst2 hnd2 hk2 ?_, ?_, rfl, rfl, ?_⟩
    · intro p hp
      exact hkey p ((List.tail_sublist s.entries).subset hp)
    · intro x hx
      rcases List.mem_append.mp hx with h | h
      · exact List.mem_append.mpr (Or.inl (List.tail_subset _ h))
      · exact List.mem_append.mpr (Or.inr h)
    · refine Or.inr ⟨hc, ?_⟩
      have h1 : (s.entries.tail ++ [(e.key, e)]).length
          = s.entries.tail.length + 1 := by simp
      rw [h1, List.length_tail]
      omega
  · rw [VectorStore.insert_fresh s e hfst hk (by omega)]
    refine ⟨aligned_append _ _ _ _ _ hfst hnd hk hkey, ?_, rfl, rfl, ?_⟩
    · exact fun x hx => hx
    · refine Or.inl ⟨by omega, by simp⟩

/-- Strong store invariant, for stores with positive capacity: aligned
and never over capacity. -/
def VectorStore.InvS (s : VectorStore) : Prop :=
  s.Aligned ∧ s.entries.length ≤ s.max_entries ∧ 1 ≤ s.max_entries

/-- Weak store invariant covering zero capacity as well: aligned and
size at most `max max_entries 1`. -/
def VectorStore.InvW (s : VectorStore) : Prop :=
  s.Aligned ∧ s.entries.length ≤ max s.max_entries 1

/-- Lemma: `insert` with a fresh key preserves the strong invariant. -/
theorem VectorStore.insert_invS (s : VectorStore) (e : MemoryEntry)
    (hI : s.InvS) (hk : e.key ∉ s.keys) :
    (s.insert e).InvS ∧ (s.insert e).keys ⊆ s.keys ++ [e.key] := by
  obtain ⟨hA, hlen, hpos⟩ := hI
  obtain ⟨hA2, hsub, hmax, hdim, hcase⟩ := VectorStore.insert_inv s e hA hk
  refine ⟨⟨hA2, ?_, by rw [hmax]; exact hpos⟩, hsub⟩
  rw [hmax]
  rcases hcase with ⟨h1, h2⟩ | ⟨h1, h2⟩ <;> omega

/-- Lemma: `insert` with a fresh key preserves the weak invariant. -/
theorem VectorStore.insert_invW (s : VectorStore) (e : MemoryEntry)
    (hI : s.InvW) (hk : e.key ∉ s.keys) :
    (s.insert e).InvW ∧ (s.insert e).keys ⊆ s.keys ++ [e.key] := by
  obtain ⟨hA, hlen⟩ := hI
  obtain ⟨hA2, hsub, hmax, hdim, hcase⟩ := VectorStore.insert_inv s e hA hk
  refine ⟨⟨hA2, ?_⟩, hsub⟩
  rw [hmax]
  rcases hcase with ⟨h1, h2⟩ | ⟨h1, h2⟩ <;> omega

/-- Folding fresh, duplicate-free inserts that fit into the remaining
capacity appends them in order. -/
theorem insertAll_fresh (es : List MemoryEntry) :
    ∀ (s : VectorStore), s.Aligned →
    (es.map (fun e => e.key)).Nodup →
    (∀ e ∈ es, e.key ∉ s.keys) →
    s.entries.length + es.length ≤ s.max_entries →
    es.foldl VectorStore.insert s =
      { s with entries := s.entries ++ es.map (fun e => (e.key, e)),
               keys := s.keys ++ es.map (fun e => e.key) } := by
  induction es with
  | nil =>
    intro s hA hnd hfresh hlen
    simp
  | cons e rest ih =>
    intro s hA hnd hfresh hlen
    have hk : e.key ∉ s.keys := hfresh e (List.mem_cons_self e rest)
    have hlt : s.entries.length < s.max_entries := by
      simp only [List.length_cons] at hlen
      omega
    have hstep := VectorStore.insert_fresh s e hA.1 hk hlt
    have hA2 : (s.insert e).Aligned := by
      rw [hstep]
      exact aligned_append _ _ _ _ _ hA.1 hA.2.1 hk hA.2.2
    have hnd2 : (rest.map (fun x => x.key)).Nodup := (List.nodup_cons.mp hnd).2
    have hfresh2 : ∀ x ∈ rest, x.key ∉ (s.insert e).keys := by
      intro x hx
      rw [hstep]
      intro hm
      rcases List.mem_append.mp hm with h | h
      · exact hfresh x (List.mem_cons_of_mem e hx) h
      · simp at h
        refine (List.nodup_cons.mp hnd).1 ?_
        show e.key ∈ List.map (fun y => y.key) rest
        rw [← h]
        exact List.mem_map_of_mem (fun y => y.key) hx
    have hlen2 : (s.insert e).entries.length + rest.length ≤ (s.insert e).max_entries := by
      rw [hstep]
      simp only [List.length_append, List.length_singleton]
      simp only [List.length_cons] at hlen
      omega
    have hrest := ih (s.insert e) hA2 hnd2 hfresh2 hlen2
    simp only [List.foldl_cons]
    rw [hrest, hstep]
    simp

/-- Walking the key list of a duplicate-free association list through its
own lookup reproduces the value list. -/
theorem filterMap_lookup_self {β : Type} :
    ∀ (l : List (String × β)), (l.map Prod.fst).Nodup →
    (l.map Prod.fst).filterMap (fun k => lookupA l k) = l.map Prod.snd := by
  intro l
  induction l with
  | nil => intro _; rfl
  | cons p rest ih =>
    intro hnd
    simp only [List.map_cons] at hnd
    obtain ⟨hp, hnd2⟩ := List.nodup_cons.mp hnd
    have h1 : lookupA (p :: rest) p.1 = some p.2 := by simp [lookupA]
    simp only [List.map_cons, List.filterMap_cons, h1]
    have h2 : (rest.map Prod.fst).filterMap (fun k => lookupA (p :: rest) k)
        = (rest.map Prod.fst).filterMap (fun k => lookupA rest k) := by
      refine List.filterMap_congr (fun k hk => ?_)
      have hpk : p.1 ≠ k := fun hx => hp (hx ▸ hk)
      simp [lookupA, hpk]
    rw [h2, ih hnd2]

/-- For an aligned store, `entries()` lists the map's values in insertion
order. -/
theorem VectorStore.entriesList_eq (s : VectorStore) (hA : s.Aligned) :
    s.entriesList = s.entries.map Prod.snd := by
  unfold VectorStore.entriesList
  rw [← hA.1]
  exact filterMap_lookup_self s.entries (by rw [hA.1]; exact hA.2.1)

/-- The entry record built inside `Memory::write`. -/
def mkEntry (key content : String) (embedding : List ℚ)
    (metadata : List (String × String)) (now : Nat) : MemoryEntry :=
  { key := key, content := content, embedding := embedding,
    metadata := metadata, created_at := now }

/-- Rust `Memory::write` with a well-sized embedding: remove-then-insert. -/
theorem Memory.writeOr_eq (m : Memory) (key content : String)
    (embedding : List ℚ) (now : Nat)
    (hdim : embedding.length = m.config.embedding_dim) :
    m.writeOr key content embedding now =
      Memory.mk (((m.store.remove key).1).insert
        (mkEntry key content embedding [] now)) m.config := by
  unfold Memory.writeOr Memory.write
  rw [if_neg (by simp [hdim])]
  rfl

/-- Writing a batch of fresh, distinct keys that fit into remaining
capacity appends the corresponding entries in order. -/
theorem Memory.writeAll_fill (ws : List WriteReq) :
    ∀ (m : Memory), m.store.Aligned →
    (∀ w ∈ ws, w.emb.length = m.config.embedding_dim) →
    ((ws.map WriteReq.key).Nodup) →
    (∀ w ∈ ws, w.key ∉ m.store.keys) →
    m.store.entries.length + ws.length ≤ m.store.max_entries →
    m.writeAll ws = { m with store := { m.store with
        entries := m.store.entries ++ ws.map (fun w => (w.key, w.entry)),
        keys := m.store.keys ++ ws.map WriteReq.key } } := by
  induction ws with
  | nil =>
    intro m hA _ _ _ _
    simp [Memory.writeAll]
  | cons w rest ih =>
    intro m hA hdim hnd hfresh hlen
    have hk : w.key ∉ m.store.keys := hfresh w (List.mem_cons_self w rest)
    have hrm : (m.store.remove w.key).1 = m.store := by
      rw [VectorStore.remove_absent m.store w.key hA.1 hk]
    have hlt : m.store.entries.length < m.store.max_entries := by
      simp only [List.length_cons] at hlen
      omega
    have hw : m.writeOr w.key w.content w.emb w.now =
        { m with store := m.store.insert w.entry } := by
      rw [Memory.writeOr_eq m _ _ _ _ (hdim w (List.mem_cons_self w rest)), hrm]
      rfl
    have hstep := VectorStore.insert_fresh m.store w.entry hA.1
      (by show w.key ∉ m.store.keys; exact hk) hlt
    have hA2 : (m.store.insert w.entry).Aligned := by
      rw [hstep]
      exact aligned_append _ _ _ _ _ hA.1 hA.2.1 hk hA.2.2
    have hnd2 : (rest.map WriteReq.key).Nodup := (List.nodup_cons.mp hnd).2
    have hfresh2 : ∀ x ∈ rest, x.key ∉ (m.store.insert w.entry).keys := by
      intro x hx
      rw [hstep]
      intro hm
      rcases List.mem_append.mp hm with h | h
      · exact hfresh x (List.mem_cons_of_mem w hx) h
      · simp only [List.mem_singleton] at h
        refine (List.nodup_cons.mp hnd).1 ?_
        exact List.mem_map.mpr ⟨x, hx, h⟩
    have hlen2 : (m.store.insert w.entry).entries.length + rest.length
        ≤ (m.store.insert w.entry).max_entries := by
      rw [hstep]
      simp only [List.length_append, List.length_singleton]
      simp only [List.length_cons] at hlen
      omega
    have hfold : m.writeAll (w :: rest) =
        (m.writeOr w.key w.content w.emb w.now).writeAll rest := rfl
    rw [hfold, hw,
      ih { m with store := m.store.insert w.entry } hA2
        (fun x hx => hdim x (List.mem_cons_of_mem w hx)) hnd2 hfresh2 hlen2,
      hstep]
    simp [WriteReq.entry]

/-- Lemma: `writeAll` distributes over list append. -/
theorem Memory.writeAll_append (m : Memory) (l1 l2 : List WriteReq) :
    m.writeAll (l1 ++ l2) = (m.writeAll l1).writeAll l2 :=
  List.foldl_append _ _ _ _

/-- C1: for a store configured with `max_entries = N ≥ 1`, after `N+1`
facade writes of distinct keys with well-sized embeddings, exactly `N`
entries remain, the first-written key reads back as `none`, and every
later key is present: eviction is by oldest insertion, not access
recency. -/
theorem c1_oldest_insertion_eviction (cfg : MemoryConfig) (N : Nat)
    (hN : 1 ≤ N) (hcap : cfg.max_entries = N)
    (w0 : WriteReq) (ws : List WriteReq) (hlen : ws.length = N)
    (hdim : ∀ w ∈ w0 :: ws, w.emb.length = cfg.embedding_dim)
    (hnd : ((w0 :: ws).map WriteReq.key).Nodup) :
    ((Memory.new cfg).writeAll (w0 :: ws)).len = N ∧
    ((Memory.new cfg).writeAll (w0 :: ws)).read w0.key = none ∧
    ∀ w ∈ ws, (((Memory.new cfg).writeAll (w0 :: ws)).read w.key).isSome = true := by
  rcases List.eq_nil_or_concat ws with rfl | ⟨ws1, wl, hcat⟩
  · simp at hlen
    omega
  rw [List.concat_eq_append] at hcat
  subst hcat
  -- decompose the distinctness of the N+1 keys
  simp only [List.map_cons, List.map_append, List.map_nil] at hnd
  obtain ⟨h0, hrest⟩ := List.nodup_cons.mp hnd
  rw [List.nodup_append] at hrest
  obtain ⟨hnds, _, hdisj⟩ := hrest
  have hlkey : wl.key ∉ List.map WriteReq.key ws1 :=
    fun hm => hdisj hm (List.mem_singleton_self _)
  have h0s : w0.key ∉ List.map WriteReq.key ws1 :=
    fun hm => h0 (List.mem_append.mpr (Or.inl hm))
  have h0l : w0.key ≠ wl.key :=
    fun he => h0 (List.mem_append.mpr (Or.inr (by simp [he])))
  have hndf : ((w0 :: ws1).map WriteReq.key).Nodup := by
    simp only [List.map_cons]
    exact List.nodup_cons.mpr ⟨h0s, hnds⟩
  have hlen1 : ws1.length + 1 = N := by
    simp only [List.length_append, List.length_singleton] at hlen
    omega
  -- fill the first N writes into the fresh store
  have hA0 : (Memory.new cfg).store.Aligned :=
    ⟨rfl, List.nodup_nil, fun p hp => absurd hp (List.not_mem_nil p)⟩
  have hfill := Memory.writeAll_fill (w0 :: ws1) (Memory.new cfg) hA0
    (fun w hw => hdim w (by
      rcases List.mem_cons.mp hw with h | h
      · rw [h]
        exact List.mem_cons_self _ _
      · exact List.mem_cons_of_mem _ (List.mem_append.mpr (Or.inl h))))
    hndf
    (fun w _ => by
      show w.key ∉ ([] : List String)
      exact List.not_mem_nil _)
    (by
      show (0 : Nat) + (w0 :: ws1).length ≤ cfg.max_entries
      simp only [List.length_cons]
      omega)
  have hm1 : (Memory.new cfg).writeAll (w0 :: ws1) =
      Memory.mk (VectorStore.mk
        ((w0 :: ws1).map (fun w => (w.key, w.entry)))
        ((w0 :: ws1).map WriteReq.key)
        cfg.embedding_dim cfg.max_entries) cfg := by
    rw [hfill]
    rfl
  -- the (N+1)-st write evicts the very first key
  have hA1 : (VectorStore.mk ((w0 :: ws1).map (fun w => (w.key, w.entry)))
      ((w0 :: ws1).map WriteReq.key) cfg.embedding_dim cfg.max_entries).Aligned := by
    refine ⟨?_, hndf, ?_⟩
    · rw [List.map_map]
      rfl
    · intro p hp
      obtain ⟨w, _, he⟩ := List.mem_map.mp hp
      rw [← he]
      rfl
  have hkl : wl.key ∉ ((w0 :: ws1).map WriteReq.key) := by
    simp only [List.map_cons, List.mem_cons]
    push_neg
    exact ⟨Ne.symm h0l, hlkey⟩
  have hrm1 : ((VectorStore.mk ((w0 :: ws1).map (fun w => (w.key, w.entry)))
      ((w0 :: ws1).map WriteReq.key) cfg.embedding_dim
      cfg.max_entries).remove wl.key).1 =
      VectorStore.mk ((w0 :: ws1).map (fun w => (w.key, w.entry)))
        ((w0 :: ws1).map WriteReq.key) cfg.embedding_dim cfg.max_entries := by
    rw [VectorStore.remove_absent _ wl.key hA1.1 hkl]
  have hcapge : (VectorStore.mk ((w0 :: ws1).map (fun w => (w.key, w.entry)))
      ((w0 :: ws1).map WriteReq.key) cfg.embedding_dim
      cfg.max_entries).max_entries ≤
      (VectorStore.mk ((w0 :: ws1).map (fun w => (w.key, w.entry)))
        ((w0 :: ws1).map WriteReq.key) cfg.embedding_dim
        cfg.max_entries).entries.length := by
    show cfg.max_entries ≤ ((w0 :: ws1).map (fun w => (w.key, w.entry))).length
    simp only [List.length_map, List.length_cons]
    omega
  have hevict := VectorStore.insert_evict _
    (mkEntry wl.key wl.content wl.emb [] wl.now) hA1 hkl hcapge
  have hfin : (Memory.new cfg).writeAll (w0 :: (ws1 ++ [wl]))
      = Memory.mk (VectorStore.mk
          (ws1.map (fun w => (w.key, w.entry)) ++ [(wl.key, wl.entry)])
          (ws1.map WriteReq.key ++ [wl.key])
          cfg.embedding_dim cfg.max_entries) cfg := by
    have happ : w0 :: (ws1 ++ [wl]) = (w0 :: ws1) ++ [wl] := by simp
    rw [happ, Memory.writeAll_append, hm1]
    show (Memory.mk _ cfg).writeOr wl.key wl.content wl.emb wl.now = _
    rw [Memory.writeOr_eq _ _ _ _ _ (hdim wl (by simp)), hrm1, hevict]
    simp [WriteReq.entry, mkEntry]
  rw [hfin]
  have hfstE : (ws1.map (fun w => (w.key, w.entry))
      ++ [(wl.key, wl.entry)]).map Prod.fst
      = ws1.map WriteReq.key ++ [wl.key] := by
    rw [List.map_append, List.map_map]
    rfl
  refine ⟨?_, ?_, ?_⟩
  · show (ws1.map (fun w => (w.key, w.entry)) ++ [(wl.key, wl.entry)]).length = N
    simp only [List.length_append, List.length_map, List.length_singleton]
    omega
  · show lookupA (ws1.map (fun w => (w.key, w.entry))
        ++ [(wl.key, wl.entry)]) w0.key = none
    refine (lookupA_eq_none_iff _ _).mpr ?_
    rw [hfstE]
    intro hm
    rcases List.mem_append.mp hm with h | h
    · exact h0s h
    · simp only [List.mem_singleton] at h
      exact h0l h
  · intro w hw
    show (lookupA (ws1.map (fun w => (w.key, w.entry))
        ++ [(wl.key, wl.entry)]) w.key).isSome = true
    refine (lookupA_isSome_iff _ _).mpr ?_
    rw [hfstE]
    rcases List.mem_append.mp hw with h | h
    · exact List.mem_append.mpr (Or.inl (List.mem_map_of_mem WriteReq.key h))
    · simp only [List.mem_singleton] at h
      rw [h]
      exact List.mem_append.mpr (Or.inr (List.mem_singleton_self _))

/-- C5: a write whose embedding length differs from the configured
dimension fails with the dimension-mismatch error naming expected and
actual lengths, and leaves the store untouched (both for `write` and for
`write_with_metadata`). -/
theorem c5_dimension_mismatch_rejected (m : Memory) (key content : String)
    (emb : List ℚ) (md : List (String × String)) (now : Nat)
    (h : emb.length ≠ m.config.embedding_dim) :
    m.write key content emb now = Except.error (CortexError.Memory
      (dimensionMismatchMsg m.config.embedding_dim emb.length)) ∧
    m.write_with_metadata key content emb md now = Except.error (CortexError.Memory
      (dimensionMismatchMsg m.config.embedding_dim emb.length)) ∧
    m.writeOr key content emb now = m ∧
    m.writeMetaOr key content emb md now = m := by
  refine ⟨?_, ?_, ?_, ?_⟩
  · unfold Memory.write
    rw [if_pos h]
  · unfold Memory.write_with_metadata
    rw [if_pos h]
  · unfold Memory.writeOr Memory.write
    rw [if_pos h]
  · unfold Memory.writeMetaOr Memory.write_with_metadata
    rw [if_pos h]

/-- C10: loading a snapshot restores only dimension, capacity and the
entry list; similarity threshold and default search k reset to the
compiled-in defaults (0.7 and 5), the persist path becomes the loaded
file's path, and post-reload `search` filters exactly at threshold 0.7. -/
theorem c10_load_resets_config (state : MemoryState) (path : String) :
    (Memory.loadFromState state path).config.similarity_threshold = 7/10 ∧
    (Memory.loadFromState state path).config.default_search_k = 5 ∧
    (Memory.loadFromState state path).config.persist_path = some path ∧
    (Memory.loadFromState state path).config.embedding_dim = state.embedding_dim ∧
    (Memory.loadFromState state path).config.max_entries = state.max_entries ∧
    ∀ fsqrt q k, (Memory.loadFromState state path).search fsqrt q k
      = (Memory.loadFromState state path).search_with_threshold fsqrt q k (7/10) :=
  ⟨rfl, rfl, rfl, rfl, rfl, fun _ _ _ => rfl⟩

/-- The store mutation performed by a validated `Memory::write`:
remove the key, then insert the new entry. -/
def storeWrite (s : VectorStore) (e : MemoryEntry) : VectorStore :=
  ((s.remove e.key).1).insert e

/-- Rust `Memory::write` with a well-sized embedding, in `storeWrite` form. -/
theorem Memory.writeOr_storeWrite (m : Memory) (key content : String)
    (embedding : List ℚ) (now : Nat)
    (hdim : embedding.length = m.config.embedding_dim) :
    m.writeOr key content embedding now =
      Memory.mk (storeWrite m.store (mkEntry key content embedding [] now))
        m.config := by
  rw [Memory.writeOr_eq m key content embedding now hdim]
  rfl

/-- Rust `Memory::write_with_metadata` with a well-sized embedding. -/
theorem Memory.writeMetaOr_storeWrite (m : Memory) (key content : String)
    (embedding : List ℚ) (md : List (String × String)) (now : Nat)
    (hdim : embedding.length = m.config.embedding_dim) :
    m.writeMetaOr key content embedding md now =
      Memory.mk (storeWrite m.store (mkEntry key content embedding md now))
        m.config := by
  unfold Memory.writeMetaOr Memory.write_with_metadata
  rw [if_neg (by simp [hdim])]
  rfl

/-- The key of a just-inserted entry is in the key sequence. -/
theorem VectorStore.insert_key_mem (s : VectorStore) (e : MemoryEntry) :
    e.key ∈ (s.insert e).keys := by
  unfold VectorStore.insert
  exact List.mem_append.mpr (Or.inr (List.mem_singleton_self _))

/-- Looking up the key of a freshly inserted entry returns that entry. -/
theorem VectorStore.insert_read (s : VectorStore) (e : MemoryEntry)
    (hA : s.Aligned) (hk : e.key ∉ s.keys) :
    lookupA (s.insert e).entries e.key = some e := by
  by_cases hc : s.max_entries ≤ s.entries.length
  · rw [VectorStore.insert_evict s e hA hk hc]
    refine lookupA_append_last _ _ _ ?_
    rw [List.map_tail, hA.1]
    exact fun hm => hk (List.tail_subset _ hm)
  · rw [VectorStore.insert_fresh s e hA.1 hk (by omega)]
    exact lookupA_append_last _ _ _ (by rw [hA.1]; exact hk)

/-- Erasing a present key from a duplicate-free association list drops
exactly one element. -/
theorem length_eraseA_of_nodup {β : Type} (l : List (String × β))
    (k : String) (hnd : (l.map Prod.fst).Nodup) (hm : k ∈ l.map Prod.fst) :
    (eraseA l k).length + 1 = l.length := by
  induction l with
  | nil => simp at hm
  | cons p rest ih =>
    simp only [List.map_cons, List.mem_cons] at hm
    simp only [List.map_cons] at hnd
    obtain ⟨hp, hnd2⟩ := List.nodup_cons.mp hnd
    unfold eraseA
    rw [List.filter_cons]
    rcases hm with h | h
    · rw [if_neg (by simp [h])]
      have hre : eraseA rest k = rest :=
        eraseA_of_not_mem rest k (by rw [← h] at hp; exact hp)
      unfold eraseA at hre
      rw [hre]
      simp
    · have hpk : p.1 ≠ k := fun hx => hp (hx ▸ h)
      rw [if_pos (by simp [hpk])]
      have := ih hnd2 h
      unfold eraseA at this
      simp only [List.length_cons]
      omega

/-- Removing a present key shrinks the store by exactly one entry. -/
theorem VectorStore.remove_present_len (s : VectorStore) (key : String)
    (hA : s.Aligned) (hm : key ∈ s.keys) :
    (s.remove key).1.entries.length + 1 = s.entries.length := by
  rw [VectorStore.remove_fst s key hA.1]
  exact length_eraseA_of_nodup s.entries key
    (by rw [hA.1]; exact hA.2.1) (by rw [hA.1]; exact hm)

/-- Lemma: `storeWrite` preserves the weak invariant, puts the key into the key
sequence, and keeps the capacity. -/
theorem storeWrite_invW (s : VectorStore) (e : MemoryEntry) (hI : s.InvW) :
    (storeWrite s e).InvW ∧ e.key ∈ (storeWrite s e).keys ∧
    (storeWrite s e).max_entries = s.max_entries := by
  unfold storeWrite
  obtain ⟨hA, hlen⟩ := hI
  have hr := VectorStore.remove_inv s e.key hA
  have hk0 : e.key ∉ (s.remove e.key).1.keys :=
    VectorStore.remove_key_not_mem s e.key hA.1
  have hw : ((s.remove e.key).1).InvW := by
    refine ⟨hr.1, ?_⟩
    have h1 := hr.2.1
    have h2 := hr.2.2.2.1
    omega
  have hins := VectorStore.insert_invW (s.remove e.key).1 e hw hk0
  refine ⟨hins.1, VectorStore.insert_key_mem _ _, ?_⟩
  have h3 := (VectorStore.insert_inv (s.remove e.key).1 e hw.1 hk0).2.2.1
  rw [h3, hr.2.2.2.1]

/-- Writing a key that is already present keeps the store size and makes
the key read back as the new entry. -/
theorem storeWrite_present (t : VectorStore) (eb : MemoryEntry)
    (hI : t.InvW) (hmem : eb.key ∈ t.keys) :
    (storeWrite t eb).entries.length = t.entries.length ∧
    lookupA (storeWrite t eb).entries eb.key = some eb := by
  unfold storeWrite
  obtain ⟨hA, hlen⟩ := hI
  have hr := VectorStore.remove_inv t eb.key hA
  have hk0 : eb.key ∉ (t.remove eb.key).1.keys :=
    VectorStore.remove_key_not_mem t eb.key hA.1
  have hlen0 : (t.remove eb.key).1.entries.length + 1 = t.entries.length :=
    VectorStore.remove_present_len t eb.key hA hmem
  refine ⟨?_, VectorStore.insert_read _ eb hr.1 hk0⟩
  have hcase := (VectorStore.insert_inv (t.remove eb.key).1 eb hr.1 hk0).2.2.2.2
  have hmax0 : (t.remove eb.key).1.max_entries = t.max_entries := hr.2.2.2.1
  have hpos : 1 ≤ t.entries.length := by
    have hne : t.keys ≠ [] := List.ne_nil_of_mem hmem
    have hkeq : t.entries.length = t.keys.length := by
      rw [← hA.1, List.length_map]
    rw [hkeq]
    exact List.length_pos.mpr hne
  rcases hcase with ⟨h1, h2⟩ | ⟨h1, h2⟩
  · omega
  · rw [hmax0] at h1
    omega

/-- C8: two successive facade writes to the same key (valid embeddings)
leave the store size unchanged after the second write, and reading the
key returns exactly the second write's content and embedding. -/
theorem c8_second_write_wins (m : Memory) (key ca cb : String)
    (ea eb : List ℚ) (ta tb : Nat) (hI : m.store.InvW)
    (hd1 : ea.length = m.config.embedding_dim)
    (hd2 : eb.length = m.config.embedding_dim) :
    ((m.writeOr key ca ea ta).writeOr key cb eb tb).len
      = (m.writeOr key ca ea ta).len ∧
    ((m.writeOr key ca ea ta).writeOr key cb eb tb).read key
      = some (mkEntry key cb eb [] tb) := by
  obtain ⟨hI1, hkmem, _⟩ := storeWrite_invW m.store (mkEntry key ca ea [] ta) hI
  rw [Memory.writeOr_storeWrite m key ca ea ta hd1]
  rw [Memory.writeOr_storeWrite
    (Memory.mk (storeWrite m.store (mkEntry key ca ea [] ta)) m.config)
    key cb eb tb hd2]
  have hp := storeWrite_present (storeWrite m.store (mkEntry key ca ea [] ta))
    (mkEntry key cb eb [] tb) hI1 hkmem
  exact ⟨hp.1, hp.2⟩

/-- A write with a mismatched embedding leaves the caller's memory as is. -/
theorem Memory.writeOr_err (m : Memory) (key content : String)
    (emb : List ℚ) (now : Nat) (h : emb.length ≠ m.config.embedding_dim) :
    m.writeOr key content emb now = m := by
  unfold Memory.writeOr Memory.write
  rw [if_pos h]

/-- Same for `write_with_metadata`. -/
theorem Memory.writeMetaOr_err (m : Memory) (key content : String)
    (emb : List ℚ) (md : List (String × String)) (now : Nat)
    (h : emb.length ≠ m.config.embedding_dim) :
    m.writeMetaOr key content emb md now = m := by
  unfold Memory.writeMetaOr Memory.write_with_metadata
  rw [if_pos h]

/-- Lemma: `storeWrite` preserves the strong invariant. -/
theorem storeWrite_invS (s : VectorStore) (e : MemoryEntry) (hI : s.InvS) :
    (storeWrite s e).InvS := by
  unfold storeWrite
  obtain ⟨hA, hlen, hpos⟩ := hI
  have hr := VectorStore.remove_inv s e.key hA
  have hk0 : e.key ∉ (s.remove e.key).1.keys :=
    VectorStore.remove_key_not_mem s e.key hA.1
  have h0 : ((s.remove e.key).1).InvS := by
    refine ⟨hr.1, ?_, ?_⟩
    · have h1 := hr.2.1
      have h2 := hr.2.2.2.1
      omega
    · rw [hr.2.2.2.1]
      exact hpos
  exact (VectorStore.insert_invS _ e h0 hk0).1

/-- Folding inserts of pairwise-distinct fresh keys preserves the strong
invariant, whatever the overflow. -/
theorem insertAll_invS (es : List MemoryEntry) :
    ∀ (s : VectorStore), s.InvS → ((es.map (fun e => e.key)).Nodup) →
    (∀ e ∈ es, e.key ∉ s.keys) →
    (es.foldl VectorStore.insert s).InvS := by
  induction es with
  | nil =>
    intro s hI _ _
    exact hI
  | cons e rest ih =>
    intro s hI hnd hfresh
    have hk := hfresh e (List.mem_cons_self e rest)
    obtain ⟨hI2, hsub⟩ := VectorStore.insert_invS s e hI hk
    refine ih (s.insert e) hI2 ((List.nodup_cons.mp hnd).2) ?_
    intro x hx hm
    rcases List.mem_append.mp (hsub hm) with h | h
    · exact hfresh x (List.mem_cons_of_mem e hx) h
    · simp only [List.mem_singleton] at h
      exact (List.nodup_cons.mp hnd).1 (List.mem_map.mpr ⟨x, hx, h⟩)

/-- The side condition the amended C4 puts on a facade operation:
`set_state` is fed only snapshots with pairwise-distinct entry keys and a
positive capacity.  All other operations are unconstrained. -/
def GoodOp : MemOp → Prop
  | MemOp.setStateOp st =>
      ((st.entries.map (fun e => e.key)).Nodup) ∧ 1 ≤ st.max_entries
  | _ => True

instance : DecidablePred GoodOp := by
  intro op
  cases op <;> simp only [GoodOp] <;> infer_instance

/-- Every facade operation preserves the strong store invariant. -/
theorem Memory.applyOp_invS (m : Memory) (op : MemOp)
    (hI : m.store.InvS) (hg : GoodOp op) : (m.applyOp op).store.InvS := by
  cases op with
  | write k c e now =>
    show (m.writeOr k c e now).store.InvS
    by_cases hd : e.length = m.config.embedding_dim
    · rw [Memory.writeOr_storeWrite m k c e now hd]
      exact storeWrite_invS m.store _ hI
    · rw [Memory.writeOr_err m k c e now hd]
      exact hI
  | writeMeta k c e md now =>
    show (m.writeMetaOr k c e md now).store.InvS
    by_cases hd : e.length = m.config.embedding_dim
    · rw [Memory.writeMetaOr_storeWrite m k c e md now hd]
      exact storeWrite_invS m.store _ hI
    · rw [Memory.writeMetaOr_err m k c e md now hd]
      exact hI
  | deleteOp k =>
    show ((m.store.remove k).1).InvS
    have hr := VectorStore.remove_inv m.store k hI.1
    refine ⟨hr.1, ?_, ?_⟩
    · have h1 := hr.2.1
      have h2 := hr.2.2.2.1
      have h3 := hI.2.1
      omega
    · rw [hr.2.2.2.1]
      exact hI.2.2
  | clearOp =>
    show (m.store.clear).InvS
    exact ⟨⟨rfl, List.nodup_nil, fun p hp => absurd hp (List.not_mem_nil p)⟩,
      Nat.zero_le _, hI.2.2⟩
  | setStateOp st =>
    show (st.entries.foldl VectorStore.insert
      (VectorStore.new st.embedding_dim st.max_entries)).InvS
    refine insertAll_invS st.entries _ ?_ hg.1 ?_
    · exact ⟨⟨rfl, List.nodup_nil, fun p hp => absurd hp (List.not_mem_nil p)⟩,
        Nat.zero_le _, hg.2⟩
    · intro e _ hm
      exact List.not_mem_nil _ hm

/-- Sequences of good facade operations preserve the strong invariant. -/
theorem Memory.applyOps_invS (ops : List MemOp) :
    ∀ (m : Memory), m.store.InvS → (∀ op ∈ ops, GoodOp op) →
    ((m.applyOps ops).store.InvS) := by
  induction ops with
  | nil =>
    intro m hI _
    exact hI
  | cons op rest ih =>
    intro m hI hg
    exact ih (m.applyOp op)
      (Memory.applyOp_invS m op hI (hg op (List.mem_cons_self _ _)))
      (fun o ho => hg o (List.mem_cons_of_mem _ ho))

/-- C4 (amended): for a store with `max_entries ≥ 1`, after any sequence
of facade operations in which `set_state` receives only duplicate-free
snapshots of positive capacity, the size never exceeds the store's
capacity and the insertion-order key sequence matches the map exactly
(no stale, no duplicate keys).  The original claim's `max_entries = 0`
case is refuted separately. -/
theorem c4_invariants_amended (cfg : MemoryConfig)
    (hpos : 1 ≤ cfg.max_entries) (ops : List MemOp)
    (hgood : ∀ op ∈ ops, GoodOp op) :
    ((Memory.new cfg).applyOps ops).store.entries.length
      ≤ ((Memory.new cfg).applyOps ops).store.max_entries ∧
    ((Memory.new cfg).applyOps ops).store.entries.map Prod.fst
      = ((Memory.new cfg).applyOps ops).store.keys ∧
    ((Memory.new cfg).applyOps ops).store.keys.Nodup := by
  have h := Memory.applyOps_invS ops (Memory.new cfg)
    ⟨⟨rfl, List.nodup_nil, fun p hp => absurd hp (List.not_mem_nil p)⟩,
      Nat.zero_le _, hpos⟩ hgood
  exact ⟨h.2.1, h.1.1, h.1.2.1⟩

/-- C4 counterexample: with `max_entries = 0` a single facade write leaves
one entry in the store, so `size ≤ max_entries` fails. -/
theorem c4_counterexample_max_zero :
    ¬ (((Memory.new (MemoryConfig.mk 1 0 none 5 (7/10))).applyOps
        [MemOp.write ("a") ("x") [1] 0]).store.entries.length
      ≤ ((Memory.new (MemoryConfig.mk 1 0 none 5 (7/10))).applyOps
        [MemOp.write ("a") ("x") [1] 0]).store.max_entries) := by
  decide

/-- Inserting into a fresh store yields the singleton store, for every
capacity (even zero: the eviction branch finds no oldest key). -/
theorem VectorStore.insert_into_fresh (dim maxE : Nat) (e : MemoryEntry) :
    (VectorStore.new dim maxE).insert e =
      VectorStore.mk [(e.key, e)] [e.key] dim maxE := by
  unfold VectorStore.insert VectorStore.new
  by_cases h : maxE ≤ 0
  · simp [h, insertA]
  · simp [h, insertA]

/-- C6: persisting a well-formed store and loading the snapshot back
reproduces the entry list (same order, hence same keys, contents,
embeddings, metadata and timestamps), the embedding dimension and the
capacity. -/
theorem c6_persist_load_roundtrip (m : Memory) (path : String)
    (hI : m.store.InvW) (hmax : m.store.max_entries = m.config.max_entries) :
    (Memory.loadFromState m.persist path).store.entriesList
      = m.store.entriesList ∧
    (Memory.loadFromState m.persist path).store.keys = m.store.keys ∧
    (Memory.loadFromState m.persist path).config.embedding_dim
      = m.config.embedding_dim ∧
    (Memory.loadFromState m.persist path).config.max_entries
      = m.config.max_entries ∧
    (Memory.loadFromState m.persist path).store.max_entries
      = m.store.max_entries := by
  obtain ⟨hA, hlen⟩ := hI
  have hes : m.store.entriesList = m.store.entries.map Prod.snd :=
    VectorStore.entriesList_eq m.store hA
  -- the serialized entries' keys are exactly the store's key sequence
  have hkeys : (m.store.entriesList).map (fun e => e.key) = m.store.keys := by
    rw [hes, List.map_map]
    have : m.store.entries.map ((fun e => e.key) ∘ Prod.snd)
        = m.store.entries.map Prod.fst :=
      List.map_congr_left (fun p hp => hA.2.2 p hp)
    rw [this, hA.1]
  have hnd_es : ((m.store.entriesList).map (fun e => e.key)).Nodup := by
    rw [hkeys]
    exact hA.2.1
  have hlen_es : (m.store.entriesList).length = m.store.entries.length := by
    rw [hes, List.length_map]
  -- the reloaded store is the entry list reindexed from scratch
  have hload : (Memory.loadFromState m.persist path).store
      = VectorStore.mk ((m.store.entriesList).map (fun e => (e.key, e)))
          ((m.store.entriesList).map (fun e => e.key))
          m.config.embedding_dim m.config.max_entries := by
    show (m.store.entriesList).foldl VectorStore.insert
        (VectorStore.new m.config.embedding_dim m.config.max_entries) = _
    by_cases hc : (m.store.entriesList).length ≤ m.config.max_entries
    · rw [insertAll_fresh (m.store.entriesList)
        (VectorStore.new m.config.embedding_dim m.config.max_entries)
        ⟨rfl, List.nodup_nil, fun p hp => absurd hp (List.not_mem_nil p)⟩
        hnd_es (fun e _ hm => List.not_mem_nil _ hm)
        (by
          show (0 : Nat) + (m.store.entriesList).length ≤ m.config.max_entries
          simpa using hc)]
      rfl
    · -- only possible with capacity 0 and a single resident entry
      have h0 : m.config.max_entries = 0 ∧ (m.store.entriesList).length = 1 := by
        rw [hlen_es]
        rw [hmax] at hlen
        omega
      obtain ⟨e, he⟩ := List.length_eq_one.mp h0.2
      rw [he]
      simp only [List.foldl_cons, List.foldl_nil, List.map_cons, List.map_nil]
      exact VectorStore.insert_into_fresh _ _ e
  have hAload : (VectorStore.mk
      ((m.store.entriesList).map (fun e => (e.key, e)))
      ((m.store.entriesList).map (fun e => e.key))
      m.config.embedding_dim m.config.max_entries).Aligned := by
    refine ⟨?_, ?_, ?_⟩
    · rw [List.map_map]
      rfl
    · exact hnd_es
    · intro p hp
      obtain ⟨e, _, hee⟩ := List.mem_map.mp hp
      rw [← hee]
  refine ⟨?_, ?_, rfl, rfl, ?_⟩
  · rw [hload, VectorStore.entriesList_eq _ hAload]
    show ((m.store.entriesList).map (fun e => (e.key, e))).map Prod.snd
      = m.store.entriesList
    rw [List.map_map]
    exact List.map_id' _
  · rw [hload]
    exact hkeys
  · rw [hload]
    exact hmax.symm

/-- The raw search returns exactly `min k size` results. -/
theorem VectorStore.search_length (fsqrt : ℚ → ℚ) (s : VectorStore)
    (q : List ℚ) (k : Nat) :
    (s.search fsqrt q k).length = min k s.entries.length := by
  unfold VectorStore.search
  by_cases h : s.entries.isEmpty = true ∨ k = 0
  · rw [if_pos h]
    rcases h with h | h
    · rw [List.isEmpty_iff.mp h]
      simp
    · simp [h]
  · rw [if_neg h]
    simp [List.length_take, List.length_insertionSort]

/-- The raw search output is sorted by non-increasing score. -/
theorem VectorStore.search_sorted (fsqrt : ℚ → ℚ) (s : VectorStore)
    (q : List ℚ) (k : Nat) :
    List.Pairwise (fun a b => b.score ≤ a.score) (s.search fsqrt q k) := by
  unfold VectorStore.search
  by_cases h : s.entries.isEmpty = true ∨ k = 0
  · rw [if_pos h]
    exact List.Pairwise.nil
  · rw [if_neg h]
    have hsorted : List.Pairwise scoreRel
        (List.insertionSort scoreRel (s.entries.map (fun p =>
          (p.2, cosine_similarity fsqrt (normalize fsqrt q) p.2.embedding)))) :=
      List.sorted_insertionSort scoreRel _
    have htake := List.Pairwise.sublist (List.take_sublist k _) hsorted
    refine List.pairwise_map.mpr ?_
    exact htake.imp (fun hab => hab)

/-- C7: with a threshold below every returned score (the `-∞` case),
`search_with_threshold` returns exactly `min k size` results, sorted by
non-increasing score. -/
theorem c7_search_with_low_threshold (fsqrt : ℚ → ℚ) (m : Memory)
    (q : List ℚ) (k : Nat) (t : ℚ)
    (ht : ∀ r ∈ m.store.search fsqrt q k, t ≤ r.score) :
    (m.search_with_threshold fsqrt q k t).length = min k m.len ∧
    List.Pairwise (fun a b => b.score ≤ a.score)
      (m.search_with_threshold fsqrt q k t) := by
  have hfilter : m.search_with_threshold fsqrt q k t
      = m.store.search fsqrt q k := by
    unfold Memory.search_with_threshold
    refine List.filter_eq_self.mpr (fun r hr => ?_)
    simpa using ht r hr
  rw [hfilter]
  exact ⟨VectorStore.search_length fsqrt m.store q k,
    VectorStore.search_sorted fsqrt m.store q k⟩

/-- C9: `cosine_similarity` is total and never divides by zero: length
mismatch yields 0, a zero-norm operand yields 0, and in particular an
all-zero vector on either side yields 0 (assuming only `sqrt 0 = 0` of
the abstracted square root). -/
theorem c9_cosine_similarity_total (fsqrt : ℚ → ℚ) (h0 : fsqrt 0 = 0)
    (a b : List ℚ) :
    (a.length ≠ b.length → cosine_similarity fsqrt a b = 0) ∧
    (fsqrt (sumOfSquares a) = 0 ∨ fsqrt (sumOfSquares b) = 0 →
      cosine_similarity fsqrt a b = 0) ∧
    (∀ n, cosine_similarity fsqrt (List.replicate n 0) b = 0) ∧
    (∀ n, cosine_similarity fsqrt a (List.replicate n 0) = 0) := by
  have hzero : ∀ n : Nat, sumOfSquares (List.replicate n (0 : ℚ)) = 0 := by
    intro n
    unfold sumOfSquares
    induction n with
    | zero => rfl
    | succ n ih =>
      rw [List.replicate_succ]
      simp only [List.map_cons, List.sum_cons, ih]
      simp
  have hmismatch : ∀ x y : List ℚ, x.length ≠ y.length →
      cosine_similarity fsqrt x y = 0 := by
    intro x y hxy
    unfold cosine_similarity
    rw [if_pos hxy]
  have hnorm : ∀ x y : List ℚ,
      fsqrt (sumOfSquares x) = 0 ∨ fsqrt (sumOfSquares y) = 0 →
      cosine_similarity fsqrt x y = 0 := by
    intro x y hor
    unfold cosine_similarity
    by_cases hxy : x.length ≠ y.length
    · rw [if_pos hxy]
    · rw [if_neg hxy, if_pos hor]
  refine ⟨hmismatch a b, hnorm a b, ?_, ?_⟩
  · intro n
    exact hnorm _ b (Or.inl (by rw [hzero n, h0]))
  · intro n
    exact hnorm a _ (Or.inr (by rw [hzero n, h0]))

/-! ### StateStore lemmas -/

/-- The eviction loop does nothing at or below the retention limit. -/
theorem evictLoop_le (maxC : Nat) (pdir : Option String) (ord : List String)
    (cps : List (String × RuntimeState)) (disk : Disk)
    (h : cps.length ≤ maxC) :
    evictLoop maxC pdir ord cps disk = (cps, ord, disk) := by
  unfold evictLoop
  rw [if_pos h]

/-- One eviction step of the loop. -/
theorem evictLoop_step (maxC : Nat) (pdir : Option String) (oldest : String)
    (rest : List String) (cps : List (String × RuntimeState)) (disk : Disk)
    (h : ¬ cps.length ≤ maxC) :
    evictLoop maxC pdir (oldest :: rest) cps disk =
      evictLoop maxC pdir rest (eraseA cps oldest)
        (match pdir with
         | some dir => eraseA disk (ckptPath dir oldest)
         | none => disk) := by
  conv_lhs => rw [evictLoop.eq_def]
  simp only [if_neg h]

/-- Lemma: `insertA` grows the list by at most one binding. -/
theorem length_insertA_le {β : Type} (l : List (String × β)) (k : String)
    (v : β) : (insertA l k v).length ≤ l.length + 1 := by
  induction l with
  | nil => simp [insertA]
  | cons p rest ih =>
    unfold insertA
    by_cases h : p.1 = k
    · rw [if_pos h]
      simp
    · rw [if_neg h]
      simp only [List.length_cons]
      omega

/-- Looking up a just-inserted binding finds it. -/
theorem lookupA_insertA_self {β : Type} (l : List (String × β)) (k : String)
    (v : β) : lookupA (insertA l k v) k = some v := by
  induction l with
  | nil => simp [insertA, lookupA]
  | cons p rest ih =>
    unfold insertA
    by_cases h : p.1 = k
    · rw [if_pos h]
      simp [lookupA]
    · rw [if_neg h]
      unfold lookupA
      rw [if_neg h]
      exact ih

/-- Rust `StateStore::save` without a durable directory, with room to spare:
append to map and order, no eviction. -/
theorem StateStore.saveOr_none_fits (cps : List (String × RuntimeState))
    (maxC : Nat) (ord : List String) (st : RuntimeState) (disk : Disk)
    (hmem : st.id ∉ cps.map Prod.fst) (hfit : cps.length + 1 ≤ maxC) :
    (StateStore.mk cps none maxC ord).saveOr st disk true
      = (StateStore.mk (cps ++ [(st.id, st)]) none maxC (ord ++ [st.id]),
         disk) := by
  have hsave : (StateStore.mk cps none maxC ord).save st disk true
      = Except.ok (st.id, StateStore.mk
          (evictLoop maxC none (ord ++ [st.id]) (insertA cps st.id st) disk).1
          none maxC
          (evictLoop maxC none (ord ++ [st.id]) (insertA cps st.id st) disk).2.1,
        (evictLoop maxC none (ord ++ [st.id]) (insertA cps st.id st) disk).2.2) :=
    rfl
  unfold StateStore.saveOr
  rw [hsave, insertA_of_not_mem _ _ _ hmem,
    evictLoop_le maxC none (ord ++ [st.id]) (cps ++ [(st.id, st)]) disk
      (by simpa using hfit)]

/-- Rust `StateStore::save` without a durable directory when the limit is hit:
append, then evict exactly the oldest id. -/
theorem StateStore.saveOr_none_evict (k0 : String) (v0 : RuntimeState)
    (cps : List (String × RuntimeState)) (maxC : Nat) (ord : List String)
    (st : RuntimeState) (disk : Disk)
    (hmem : st.id ∉ ((k0, v0) :: cps).map Prod.fst)
    (hk0 : k0 ∉ cps.map Prod.fst) (hk0l : k0 ≠ st.id)
    (hover : maxC < cps.length + 2) (hfit : cps.length + 1 ≤ maxC) :
    (StateStore.mk ((k0, v0) :: cps) none maxC (k0 :: ord)).saveOr st disk true
      = (StateStore.mk (cps ++ [(st.id, st)]) none maxC (ord ++ [st.id]),
         disk) := by
  have hsave : (StateStore.mk ((k0, v0) :: cps) none maxC (k0 :: ord)).save
        st disk true
      = Except.ok (st.id, StateStore.mk
          (evictLoop maxC none ((k0 :: ord) ++ [st.id])
            (insertA ((k0, v0) :: cps) st.id st) disk).1
          none maxC
          (evictLoop maxC none ((k0 :: ord) ++ [st.id])
            (insertA ((k0, v0) :: cps) st.id st) disk).2.1,
        (evictLoop maxC none ((k0 :: ord) ++ [st.id])
          (insertA ((k0, v0) :: cps) st.id st) disk).2.2) := rfl
  unfold StateStore.saveOr
  rw [hsave, insertA_of_not_mem _ _ _ hmem]
  have hstep := evictLoop_step maxC none k0 (ord ++ [st.id])
    ((k0, v0) :: (cps ++ [(st.id, st)])) disk (by simp; omega)
  have herase : eraseA ((k0, v0) :: (cps ++ [(st.id, st)])) k0
      = cps ++ [(st.id, st)] := by
    refine eraseA_cons_of_not_mem k0 v0 _ ?_
    rw [List.map_append]
    intro hm
    rcases List.mem_append.mp hm with h | h
    · exact hk0 h
    · simp only [List.map_cons, List.map_nil, List.mem_singleton] at h
      exact hk0l h
  rw [show ((k0 :: ord) ++ [st.id]) = k0 :: (ord ++ [st.id]) from rfl,
    show (((k0, v0) :: cps) ++ [(st.id, st)])
      = (k0, v0) :: (cps ++ [(st.id, st)]) from rfl]
  rw [hstep, herase,
    evictLoop_le maxC none (ord ++ [st.id]) (cps ++ [(st.id, st)]) disk
      (by simpa using hfit)]

/-- C2: a `StateStore` with retention limit 3 and no durable directory,
after saving five records with distinct ids, holds exactly the three most
recent: those load back, and each of the two oldest ids fails with an
`InvalidCheckpoint` error naming the requested id. -/
theorem c2_retention_limit_three (s1 s2 s3 s4 s5 : RuntimeState)
    (h12 : s1.id ≠ s2.id) (h13 : s1.id ≠ s3.id) (h14 : s1.id ≠ s4.id)
    (h15 : s1.id ≠ s5.id) (h23 : s2.id ≠ s3.id) (h24 : s2.id ≠ s4.id)
    (h25 : s2.id ≠ s5.id) (h34 : s3.id ≠ s4.id) (h35 : s3.id ≠ s5.id)
    (h45 : s4.id ≠ s5.id) :
    let r1 := (StateStore.new none 3).saveOr s1 [] true
    let r2 := r1.1.saveOr s2 r1.2 true
    let r3 := r2.1.saveOr s3 r2.2 true
    let r4 := r3.1.saveOr s4 r3.2 true
    let r5 := r4.1.saveOr s5 r4.2 true
    r5.1.len = 3 ∧
    r5.1.load r5.2 s3.id = Except.ok s3 ∧
    r5.1.load r5.2 s4.id = Except.ok s4 ∧
    r5.1.load r5.2 s5.id = Except.ok s5 ∧
    r5.1.load r5.2 s1.id = Except.error (CortexError.InvalidCheckpoint
      ("Checkpoint not found: " ++ s1.id)) ∧
    r5.1.load r5.2 s2.id = Except.error (CortexError.InvalidCheckpoint
      ("Checkpoint not found: " ++ s2.id)) := by
  have e1 : (StateStore.new none 3).saveOr s1 [] true
      = (StateStore.mk [(s1.id, s1)] none 3 [s1.id], ([] : Disk)) := by
    have := StateStore.saveOr_none_fits [] 3 [] s1 [] (by simp) (by simp)
    simpa using this
  have e2 : (StateStore.mk [(s1.id, s1)] none 3 [s1.id]).saveOr s2 [] true
      = (StateStore.mk [(s1.id, s1), (s2.id, s2)] none 3 [s1.id, s2.id],
         ([] : Disk)) := by
    have := StateStore.saveOr_none_fits [(s1.id, s1)] 3 [s1.id] s2 []
      (by simp [Ne.symm h12]) (by simp)
    simpa using this
  have e3 : (StateStore.mk [(s1.id, s1), (s2.id, s2)] none 3
        [s1.id, s2.id]).saveOr s3 [] true
      = (StateStore.mk [(s1.id, s1), (s2.id, s2), (s3.id, s3)] none 3
          [s1.id, s2.id, s3.id], ([] : Disk)) := by
    have := StateStore.saveOr_none_fits [(s1.id, s1), (s2.id, s2)] 3
      [s1.id, s2.id] s3 [] (by simp [Ne.symm h13, Ne.symm h23]) (by simp)
    simpa using this
  have e4 : (StateStore.mk [(s1.id, s1), (s2.id, s2), (s3.id, s3)] none 3
        [s1.id, s2.id, s3.id]).saveOr s4 [] true
      = (StateStore.mk [(s2.id, s2), (s3.id, s3), (s4.id, s4)] none 3
          [s2.id, s3.id, s4.id], ([] : Disk)) := by
    have := StateStore.saveOr_none_evict s1.id s1 [(s2.id, s2), (s3.id, s3)]
      3 [s2.id, s3.id] s4 []
      (by simp [Ne.symm h14, Ne.symm h24, Ne.symm h34])
      (by simp [h12, h13]) h14 (by simp) (by simp)
    simpa using this
  have e5 : (StateStore.mk [(s2.id, s2), (s3.id, s3), (s4.id, s4)] none 3
        [s2.id, s3.id, s4.id]).saveOr s5 [] true
      = (StateStore.mk [(s3.id, s3), (s4.id, s4), (s5.id, s5)] none 3
          [s3.id, s4.id, s5.id], ([] : Disk)) := by
    have := StateStore.saveOr_none_evict s2.id s2 [(s3.id, s3), (s4.id, s4)]
      3 [s3.id, s4.id] s5 []
      (by simp [Ne.symm h25, Ne.symm h35, Ne.symm h45])
      (by simp [h23, h24]) h25 (by simp) (by simp)
    simpa using this
  dsimp only
  rw [e1, e2, e3, e4, e5]
  refine ⟨rfl, ?_, ?_, ?_, ?_, ?_⟩
  · unfold StateStore.load
    simp [lookupA]
  · unfold StateStore.load
    simp [lookupA, h34]
  · unfold StateStore.load
    simp [lookupA, h35, h45]
  · unfold StateStore.load
    simp [lookupA, Ne.symm h13, Ne.symm h14, Ne.symm h15]
  · unfold StateStore.load
    simp [lookupA, Ne.symm h23, Ne.symm h24, Ne.symm h25]

/-- C3: with a durable directory configured, a failing disk write makes
`save` return the I/O error before anything is registered — whatever the
store's fill level: the caller's map, order sequence, length and listing
are all unchanged.  On a successful write (the no-pending-eviction case,
where the record is not immediately evicted again), the record lands
both at `<dir>/<id>.ckpt` on disk and in the in-memory map. -/
theorem c3_save_disk_failure_atomic (s : StateStore) (st : RuntimeState)
    (disk : Disk) (dir : String) (hdir : s.persist_dir = some dir) :
    s.save st disk false = Except.error (CortexError.IoError ("disk write failed")) ∧
    s.saveOr st disk false = (s, disk) ∧
    (s.saveOr st disk false).1.checkpoints = s.checkpoints ∧
    (s.saveOr st disk false).1.checkpoint_order = s.checkpoint_order ∧
    (s.saveOr st disk false).1.len = s.len ∧
    (s.saveOr st disk false).1.list = s.list ∧
    (s.checkpoints.length + 1 ≤ s.max_checkpoints →
      ∀ rid s2 disk2, s.save st disk true = Except.ok (rid, s2, disk2) →
        lookupA disk2 (ckptPath dir st.id) = some st ∧
        lookupA s2.checkpoints st.id = some st) := by
  have herr : s.save st disk false
      = Except.error (CortexError.IoError ("disk write failed")) := by
    unfold StateStore.save
    rw [hdir]
    rfl
  have hor : s.saveOr st disk false = (s, disk) := by
    unfold StateStore.saveOr
    rw [herr]
  refine ⟨herr, hor, by rw [hor], by rw [hor], by rw [hor], by rw [hor], ?_⟩
  intro hfit rid s2 disk2 heq
  have hok : s.save st disk true = Except.ok (st.id, StateStore.mk
      (insertA s.checkpoints st.id st) (some dir) s.max_checkpoints
      (s.checkpoint_order ++ [st.id]),
      insertA disk (ckptPath dir st.id) st) := by
    unfold StateStore.save
    rw [hdir]
    show Except.ok _ = _
    rw [evictLoop_le s.max_checkpoints (some dir)
      (s.checkpoint_order ++ [st.id]) (insertA s.checkpoints st.id st)
      (insertA disk (ckptPath dir st.id) st)
      (by
        have := length_insertA_le s.checkpoints st.id st
        omega)]
  rw [hok] at heq
  obtain ⟨heq1, heq2, heq3⟩ :
      rid = st.id ∧ s2 = StateStore.mk (insertA s.checkpoints st.id st)
        (some dir) s.max_checkpoints (s.checkpoint_order ++ [st.id]) ∧
      disk2 = insertA disk (ckptPath dir st.id) st := by
    have h1 := (Except.ok.injEq _ _).mp heq.symm
    exact ⟨(Prod.mk.injEq _ _ _ _).mp h1 |>.1,
      ((Prod.mk.injEq _ _ _ _).mp ((Prod.mk.injEq _ _ _ _).mp h1 |>.2)).1,
      ((Prod.mk.injEq _ _ _ _).mp ((Prod.mk.injEq _ _ _ _).mp h1 |>.2)).2⟩
  rw [heq2, heq3]
  exact ⟨lookupA_insertA_self disk _ st, lookupA_insertA_self s.checkpoints _ st⟩

/-! ### Concrete witnesses -/

instance (s : VectorStore) : Decidable s.InvW := by
  unfold VectorStore.InvW
  infer_instance

instance (s : VectorStore) : Decidable s.InvS := by
  unfold VectorStore.InvS
  infer_instance

/-- A minimal runtime state record used by the concrete witnesses. -/
def demoState (i : String) : RuntimeState :=
  RuntimeState.mk i none [] (MemoryState.mk 1 1 [])
    (EngineState.mk [] 0 ("none")) 0 []

/-- Witness for C1 at capacity 1 with two writes. -/
theorem c1_oldest_insertion_eviction_witness :
    ((1 : Nat) ≤ 1 ∧
      (([WriteReq.mk ("a") ("x") [1] 0,
         WriteReq.mk ("b") ("y") [2] 1]).map WriteReq.key).Nodup) ∧
    (((Memory.new (MemoryConfig.mk 1 1 none 5 (7/10))).writeAll
        [WriteReq.mk ("a") ("x") [1] 0, WriteReq.mk ("b") ("y") [2] 1]).len = 1 ∧
      ((Memory.new (MemoryConfig.mk 1 1 none 5 (7/10))).writeAll
        [WriteReq.mk ("a") ("x") [1] 0,
         WriteReq.mk ("b") ("y") [2] 1]).read ("a") = none ∧
      ∀ w ∈ [WriteReq.mk ("b") ("y") [2] 1],
        (((Memory.new (MemoryConfig.mk 1 1 none 5 (7/10))).writeAll
          [WriteReq.mk ("a") ("x") [1] 0,
           WriteReq.mk ("b") ("y") [2] 1]).read w.key).isSome = true) :=
  ⟨⟨by decide, by decide⟩,
    c1_oldest_insertion_eviction (MemoryConfig.mk 1 1 none 5 (7/10)) 1
      (by decide) rfl (WriteReq.mk ("a") ("x") [1] 0)
      [WriteReq.mk ("b") ("y") [2] 1] rfl (by decide) (by decide)⟩

/-- Witness for C2 with five concrete records. -/
theorem c2_retention_limit_three_witness :
    ((demoState ("1")).id ≠ (demoState ("2")).id) ∧
    (let r1 := (StateStore.new none 3).saveOr (demoState ("1")) [] true
     let r2 := r1.1.saveOr (demoState ("2")) r1.2 true
     let r3 := r2.1.saveOr (demoState ("3")) r2.2 true
     let r4 := r3.1.saveOr (demoState ("4")) r3.2 true
     let r5 := r4.1.saveOr (demoState ("5")) r4.2 true
     r5.1.len = 3 ∧
     r5.1.load r5.2 (demoState ("3")).id = Except.ok (demoState ("3")) ∧
     r5.1.load r5.2 (demoState ("4")).id = Except.ok (demoState ("4")) ∧
     r5.1.load r5.2 (demoState ("5")).id = Except.ok (demoState ("5")) ∧
     r5.1.load r5.2 (demoState ("1")).id
       = Except.error (CortexError.InvalidCheckpoint
          ("Checkpoint not found: " ++ (demoState ("1")).id)) ∧
     r5.1.load r5.2 (demoState ("2")).id
       = Except.error (CortexError.InvalidCheckpoint
          ("Checkpoint not found: " ++ (demoState ("2")).id))) :=
  ⟨by decide,
    c2_retention_limit_three (demoState ("1")) (demoState ("2"))
      (demoState ("3")) (demoState ("4")) (demoState ("5"))
      (by decide) (by decide) (by decide) (by decide) (by decide)
      (by decide) (by decide) (by decide) (by decide) (by decide)⟩

/-- Witness for C3 on a store with a configured directory. -/
theorem c3_save_disk_failure_atomic_witness :
    ((StateStore.mk [] (some ("d")) 3 []).persist_dir = some ("d")) ∧
    ((StateStore.mk [] (some ("d")) 3 []).save (demoState ("1")) [] false
      = Except.error (CortexError.IoError ("disk write failed")) ∧
     (StateStore.mk [] (some ("d")) 3 []).saveOr (demoState ("1")) [] false
      = (StateStore.mk [] (some ("d")) 3 [], []) ∧
     ((StateStore.mk [] (some ("d")) 3 []).saveOr (demoState ("1")) [] false).1.checkpoints
      = (StateStore.mk [] (some ("d")) 3 []).checkpoints ∧
     ((StateStore.mk [] (some ("d")) 3 []).saveOr (demoState ("1")) [] false).1.checkpoint_order
      = (StateStore.mk [] (some ("d")) 3 []).checkpoint_order ∧
     ((StateStore.mk [] (some ("d")) 3 []).saveOr (demoState ("1")) [] false).1.len
      = (StateStore.mk [] (some ("d")) 3 []).len ∧
     ((StateStore.mk [] (some ("d")) 3 []).saveOr (demoState ("1")) [] false).1.list
      = (StateStore.mk [] (some ("d")) 3 []).list ∧
     ((StateStore.mk [] (some ("d")) 3 []).checkpoints.length + 1
        ≤ (StateStore.mk [] (some ("d")) 3 []).max_checkpoints →
      ∀ rid s2 disk2,
        (StateStore.mk [] (some ("d")) 3 []).save (demoState ("1")) [] true
          = Except.ok (rid, s2, disk2) →
        lookupA disk2 (ckptPath ("d") (demoState ("1")).id)
          = some (demoState ("1")) ∧
        lookupA s2.checkpoints (demoState ("1")).id = some (demoState ("1")))) :=
  ⟨rfl, c3_save_disk_failure_atomic (StateStore.mk [] (some ("d")) 3 [])
    (demoState ("1")) [] ("d") rfl⟩

/-- Witness for the amended C4 on a short operation sequence. -/
theorem c4_invariants_amended_witness :
    ((1 : Nat) ≤ (MemoryConfig.mk 1 2 none 5 (7/10)).max_entries ∧
      (∀ op ∈ [MemOp.write ("a") ("x") [1] 0,
        MemOp.write ("b") ("y") [2] 1,
        MemOp.write ("c") ("z") [3] 2,
        MemOp.deleteOp ("b"),
        MemOp.setStateOp (MemoryState.mk 1 1 [mkEntry ("d") ("w") [4] [] 3]),
        MemOp.clearOp], GoodOp op)) ∧
    (((Memory.new (MemoryConfig.mk 1 2 none 5 (7/10))).applyOps
        [MemOp.write ("a") ("x") [1] 0,
         MemOp.write ("b") ("y") [2] 1,
         MemOp.write ("c") ("z") [3] 2,
         MemOp.deleteOp ("b"),
         MemOp.setStateOp (MemoryState.mk 1 1 [mkEntry ("d") ("w") [4] [] 3]),
         MemOp.clearOp]).store.entries.length
      ≤ ((Memory.new (MemoryConfig.mk 1 2 none 5 (7/10))).applyOps
        [MemOp.write ("a") ("x") [1] 0,
         MemOp.write ("b") ("y") [2] 1,
         MemOp.write ("c") ("z") [3] 2,
         MemOp.deleteOp ("b"),
         MemOp.setStateOp (MemoryState.mk 1 1 [mkEntry ("d") ("w") [4] [] 3]),
         MemOp.clearOp]).store.max_entries ∧
      ((Memory.new (MemoryConfig.mk 1 2 none 5 (7/10))).applyOps
        [MemOp.write ("a") ("x") [1] 0,
         MemOp.write ("b") ("y") [2] 1,
         MemOp.write ("c") ("z") [3] 2,
         MemOp.deleteOp ("b"),
         MemOp.setStateOp (MemoryState.mk 1 1 [mkEntry ("d") ("w") [4] [] 3]),
         MemOp.clearOp]).store.entries.map Prod.fst
      = ((Memory.new (MemoryConfig.mk 1 2 none 5 (7/10))).applyOps
        [MemOp.write ("a") ("x") [1] 0,
         MemOp.write ("b") ("y") [2] 1,
         MemOp.write ("c") ("z") [3] 2,
         MemOp.deleteOp ("b"),
         MemOp.setStateOp (MemoryState.mk 1 1 [mkEntry ("d") ("w") [4] [] 3]),
         MemOp.clearOp]).store.keys ∧
      ((Memory.new (MemoryConfig.mk 1 2 none 5 (7/10))).applyOps
        [MemOp.write ("a") ("x") [1] 0,
         MemOp.write ("b") ("y") [2] 1,
         MemOp.write ("c") ("z") [3] 2,
         MemOp.deleteOp ("b"),
         MemOp.setStateOp (MemoryState.mk 1 1 [mkEntry ("d") ("w") [4] [] 3]),
         MemOp.clearOp]).store.keys.Nodup) :=
  ⟨⟨by decide, by decide⟩,
    c4_invariants_amended (MemoryConfig.mk 1 2 none 5 (7/10)) (by decide)
      [MemOp.write ("a") ("x") [1] 0,
       MemOp.write ("b") ("y") [2] 1,
       MemOp.write ("c") ("z") [3] 2,
       MemOp.deleteOp ("b"),
       MemOp.setStateOp (MemoryState.mk 1 1 [mkEntry ("d") ("w") [4] [] 3]),
       MemOp.clearOp] (by decide)⟩

/-- Witness for C5: a length-1 embedding against dimension 2. -/
theorem c5_dimension_mismatch_rejected_witness :
    (([1] : List ℚ).length
        ≠ (Memory.new (MemoryConfig.mk 2 5 none 5 (7/10))).config.embedding_dim) ∧
    ((Memory.new (MemoryConfig.mk 2 5 none 5 (7/10))).write ("a") ("x") [1] 0
      = Except.error (CortexError.Memory (dimensionMismatchMsg 2 1)) ∧
     (Memory.new (MemoryConfig.mk 2 5 none 5 (7/10))).write_with_metadata
        ("a") ("x") [1] [] 0
      = Except.error (CortexError.Memory (dimensionMismatchMsg 2 1)) ∧
     (Memory.new (MemoryConfig.mk 2 5 none 5 (7/10))).writeOr ("a") ("x") [1] 0
      = Memory.new (MemoryConfig.mk 2 5 none 5 (7/10)) ∧
     (Memory.new (MemoryConfig.mk 2 5 none 5 (7/10))).writeMetaOr
        ("a") ("x") [1] [] 0
      = Memory.new (MemoryConfig.mk 2 5 none 5 (7/10))) :=
  ⟨by decide,
    c5_dimension_mismatch_rejected (Memory.new (MemoryConfig.mk 2 5 none 5 (7/10)))
      ("a") ("x") [1] [] 0 (by decide)⟩

/-- Witness for C6 on a one-entry store. -/
theorem c6_persist_load_roundtrip_witness :
    ((Memory.mk (VectorStore.mk [(("a"), mkEntry ("a") ("x") [1] [] 0)]
        [("a")] 1 2) (MemoryConfig.mk 1 2 none 5 (7/10))).store.InvW ∧
      (Memory.mk (VectorStore.mk [(("a"), mkEntry ("a") ("x") [1] [] 0)]
        [("a")] 1 2) (MemoryConfig.mk 1 2 none 5 (7/10))).store.max_entries
        = (Memory.mk (VectorStore.mk [(("a"), mkEntry ("a") ("x") [1] [] 0)]
          [("a")] 1 2) (MemoryConfig.mk 1 2 none 5 (7/10))).config.max_entries) ∧
    ((Memory.loadFromState
        (Memory.mk (VectorStore.mk [(("a"), mkEntry ("a") ("x") [1] [] 0)]
          [("a")] 1 2) (MemoryConfig.mk 1 2 none 5 (7/10))).persist
        ("p")).store.entriesList
      = (Memory.mk (VectorStore.mk [(("a"), mkEntry ("a") ("x") [1] [] 0)]
          [("a")] 1 2) (MemoryConfig.mk 1 2 none 5 (7/10))).store.entriesList ∧
     (Memory.loadFromState
        (Memory.mk (VectorStore.mk [(("a"), mkEntry ("a") ("x") [1] [] 0)]
          [("a")] 1 2) (MemoryConfig.mk 1 2 none 5 (7/10))).persist
        ("p")).store.keys
      = (Memory.mk (VectorStore.mk [(("a"), mkEntry ("a") ("x") [1] [] 0)]
          [("a")] 1 2) (MemoryConfig.mk 1 2 none 5 (7/10))).store.keys ∧
     (Memory.loadFromState
        (Memory.mk (VectorStore.mk [(("a"), mkEntry ("a") ("x") [1] [] 0)]
          [("a")] 1 2) (MemoryConfig.mk 1 2 none 5 (7/10))).persist
        ("p")).config.embedding_dim = 1 ∧
     (Memory.loadFromState
        (Memory.mk (VectorStore.mk [(("a"), mkEntry ("a") ("x") [1] [] 0)]
          [("a")] 1 2) (MemoryConfig.mk 1 2 none 5 (7/10))).persist
        ("p")).config.max_entries = 2 ∧
     (Memory.loadFromState
        (Memory.mk (VectorStore.mk [(("a"), mkEntry ("a") ("x") [1] [] 0)]
          [("a")] 1 2) (MemoryConfig.mk 1 2 none 5 (7/10))).persist
        ("p")).store.max_entries = 2) :=
  ⟨⟨by decide, by decide⟩,
    c6_persist_load_roundtrip
      (Memory.mk (VectorStore.mk [(("a"), mkEntry ("a") ("x") [1] [] 0)]
        [("a")] 1 2) (MemoryConfig.mk 1 2 none 5 (7/10))) ("p")
      (by decide) (by decide)⟩

/-- Witness for C7 on a one-entry store with threshold 0 (the abstract
square root instantiated with the constant-zero function, under which
every cosine score is 0). -/
theorem c7_search_with_low_threshold_witness :
    (∀ r ∈ (Memory.mk (VectorStore.mk [(("a"), mkEntry ("a") ("x") [1] [] 0)]
        [("a")] 1 2) (MemoryConfig.mk 1 2 none 5 (7/10))).store.search
          (fun _ => 0) [2] 1, (0 : ℚ) ≤ r.score) ∧
    (((Memory.mk (VectorStore.mk [(("a"), mkEntry ("a") ("x") [1] [] 0)]
        [("a")] 1 2) (MemoryConfig.mk 1 2 none 5 (7/10))).search_with_threshold
          (fun _ => 0) [2] 1 0).length
      = min 1 (Memory.mk (VectorStore.mk [(("a"), mkEntry ("a") ("x") [1] [] 0)]
          [("a")] 1 2) (MemoryConfig.mk 1 2 none 5 (7/10))).len ∧
     List.Pairwise (fun a b => b.score ≤ a.score)
      ((Memory.mk (VectorStore.mk [(("a"), mkEntry ("a") ("x") [1] [] 0)]
        [("a")] 1 2) (MemoryConfig.mk 1 2 none 5 (7/10))).search_with_threshold
          (fun _ => 0) [2] 1 0)) :=
  ⟨by decide,
    c7_search_with_low_threshold (fun _ => 0)
      (Memory.mk (VectorStore.mk [(("a"), mkEntry ("a") ("x") [1] [] 0)]
        [("a")] 1 2) (MemoryConfig.mk 1 2 none 5 (7/10))) [2] 1 0 (by decide)⟩

/-- Witness for C8: two writes to one key on a fresh store. -/
theorem c8_second_write_wins_witness :
    ((Memory.new (MemoryConfig.mk 1 2 none 5 (7/10))).store.InvW ∧
      ([2] : List ℚ).length
        = (Memory.new (MemoryConfig.mk 1 2 none 5 (7/10))).config.embedding_dim) ∧
    ((((Memory.new (MemoryConfig.mk 1 2 none 5 (7/10))).writeOr
          ("k") ("one") [1] 0).writeOr ("k") ("two") [2] 1).len
      = ((Memory.new (MemoryConfig.mk 1 2 none 5 (7/10))).writeOr
          ("k") ("one") [1] 0).len ∧
     (((Memory.new (MemoryConfig.mk 1 2 none 5 (7/10))).writeOr
          ("k") ("one") [1] 0).writeOr ("k") ("two") [2] 1).read ("k")
      = some (mkEntry ("k") ("two") [2] [] 1)) :=
  ⟨⟨by decide, by decide⟩,
    c8_second_write_wins (Memory.new (MemoryConfig.mk 1 2 none 5 (7/10)))
      ("k") ("one") ("two") [1] [2] 0 1 (by decide) (by decide) (by decide)⟩

/-- Witness for C9: length mismatch and an all-zero operand. -/
theorem c9_cosine_similarity_total_witness :
    (([1] : List ℚ).length ≠ ([1, 2] : List ℚ).length ∧
      cosine_similarity (fun x => x) [1] [1, 2] = 0) ∧
    cosine_similarity (fun x => x) (List.replicate 2 0) [3, 4] = 0 :=
  ⟨⟨by decide,
    (c9_cosine_similarity_total (fun x => x) rfl [1] [1, 2]).1 (by decide)⟩,
    (c9_cosine_similarity_total (fun x => x) rfl [9] [3, 4]).2.2.1 2⟩

end Cortex
